import Mathlib

/-!
# Receipt processor: validator, points calculator, submit and lookup handlers

A shallow embedding of `src/api/server.go`.

* The store is the content of its two tables, `receipts` and `items`; a transaction works
  on a copy that replaces the committed store when `Commit` succeeds. What the handlers
  cannot decide by themselves (fresh identifiers, failures of the engine, the order of the
  rows of a query) is an explicit argument. The text of a statement is read as the INSERT
  or the selection it is meant to be only when no spliced value holds a single quote;
  what the engine does with any other text is an argument too.

* A Go `string` is a sequence of bytes; `len`, slicing, `[]byte(s)`, `strings.Trim` with an
  ASCII cutset, `strings.Contains` and `==` all work on bytes, so a string is modelled as the
  list of its byte values.
* A Go `int` is taken to be 64 bits wide (twos-complement); every `+=` wraps.
* A slice expression out of range panics; a panicking `calculatePoints` is `none`.
* `float64` values are modelled exactly: a finite non-negative value is `m * 2^e`, and every
  operation rounds to nearest, ties to even, as IEEE-754 prescribes.
-/

namespace Receipt

/-! ## Strings -/

/-- A Go string: its bytes, each a value in `0..255`. -/
abbrev GoString := List Nat

/-- UTF-8 encoding of one code point, as the Go compiler stores a character of a string
literal. -/
def utf8Char (c : Char) : List Nat :=
  let n := c.toNat
  if n < 128 then [n]
  else if n < 2048 then [192 + n / 64, 128 + n % 64]
  else if n < 65536 then [224 + n / 4096, 128 + n / 64 % 64, 128 + n % 64]
  else [240 + n / 262144, 128 + n / 4096 % 64, 128 + n / 64 % 64, 128 + n % 64]

/-- The bytes of a string literal. -/
def str (s : String) : GoString :=
  s.toList.foldr (fun c acc => utf8Char c ++ acc) []

/-- Slice expression `s[lo:]`; `none` is the run-time panic for an index out of range. -/
def sliceFrom (s : GoString) (lo : Int) : Option GoString :=
  if 0 ≤ lo ∧ lo ≤ (s.length : Int) then some (s.drop lo.toNat) else none

/-- Slice expression `s[lo:hi]` with constant bounds `lo ≤ hi`; `none` is the panic. -/
def slice (s : GoString) (lo hi : Nat) : Option GoString :=
  if lo ≤ hi ∧ hi ≤ s.length then some ((s.take hi).drop lo) else none

/-- Membership of a byte in an ASCII cutset. -/
def inCutset (cutset : GoString) (b : Nat) : Bool :=
  cutset.contains b

/-- Go `strings.Trim(s, cutset)` for a cutset of ASCII bytes: leading, then trailing bytes
of the cutset are removed. -/
def stringsTrim (s cutset : GoString) : GoString :=
  (((s.dropWhile (inCutset cutset)).reverse).dropWhile (inCutset cutset)).reverse

/-- Whether `s` begins with `sub`. -/
def startsWith : GoString → GoString → Bool
  | _, [] => true
  | [], _ :: _ => false
  | b :: s, c :: sub => b == c && startsWith s sub

/-- Go `strings.Contains(s, substr)`. -/
def stringsContains : GoString → GoString → Bool
  | [], sub => startsWith [] sub
  | b :: s, sub => startsWith (b :: s) sub || stringsContains s sub

/-! ## Machine integers -/

/-- Reduction of an integer to the 64-bit twos-complement range of Go's `int`. -/
def wrapInt (x : Int) : Int :=
  (x + 9223372036854775808) % 18446744073709551616 - 9223372036854775808

/-! ## float64 -/

/-- A non-negative `float64`: the finite value `m * 2^e`, or `+Inf`. -/
inductive Float64 where
  | finite (m : Nat) (e : Int)
  | inf
  deriving DecidableEq, Repr

/-- Numerator of `n / (d * 2^e)`. -/
def scaleNum (n : Nat) (e : Int) : Nat :=
  if e < 0 then n * 2 ^ (-e).toNat else n

/-- Denominator of `n / (d * 2^e)`. -/
def scaleDen (d : Nat) (e : Int) : Nat :=
  if e < 0 then d else d * 2 ^ e.toNat

/-- The integer nearest to `n / d`, ties to the even one. -/
def roundHalfEven (n d : Nat) : Nat :=
  let q := n / d
  let r := n % d
  if 2 * r < d then q
  else if d < 2 * r then q + 1
  else q + q % 2

/-- Position of the highest set bit, `⌊log₂ n⌋` (and `0` for `n = 0`), with `fuel ≥ n`. -/
def log2Fuel : Nat → Nat → Nat
  | 0, _ => 0
  | fuel + 1, n => if n < 2 then 0 else log2Fuel fuel (n / 2) + 1

/-- Position of the highest set bit of `n`. -/
def log2 (n : Nat) : Nat := log2Fuel n n

/-- The exponent `e` of the binary64 grid around `n / d` (`0 < n`, `0 < d`): the one with
`2^52 ≤ n / (d * 2^e) < 2^53`, but never below the subnormal exponent `-1074`. -/
def gridExp (n d : Nat) : Int :=
  let e0 : Int := (log2 n : Int) - (log2 d : Int) - 52
  let e1 : Int := if scaleNum n e0 < scaleDen d e0 * 2 ^ 52 then e0 - 1 else e0
  max e1 (-1074)

/-- The binary64 value nearest to the rational `n / d` (`0 < d`), ties to even; `+Inf` once
the rounded value reaches `2^1024`. -/
def roundFloat64 (n d : Nat) : Float64 :=
  if n = 0 then .finite 0 0
  else
    let e := gridExp n d
    let m := roundHalfEven (scaleNum n e) (scaleDen d e)
    if 971 < e ∨ (e = 971 ∧ 9007199254740992 ≤ m) then .inf else .finite m e

/-- The `float64` constant `0.2`: `3602879701896397 * 2^-54`. -/
def f64_0_2 : Float64 := roundFloat64 2 10

/-- Multiplication of `float64` values: the exact product, rounded. -/
def Float64.mul : Float64 → Float64 → Float64
  | .finite m1 e1, .finite m2 e2 =>
      roundFloat64 (scaleNum (m1 * m2) (-(e1 + e2))) (scaleDen 1 (-(e1 + e2)))
  | _, _ => .inf

/-- Go `math.Ceil` on a non-negative value (exact: the result is a `float64`); the finite
result is given as a natural number. -/
def mathCeil : Float64 → Option Nat
  | .finite m e => some ((scaleNum m (-e) + scaleDen 1 (-e) - 1) / scaleDen 1 (-e))
  | .inf => none

/-- Result of converting to `int` a `float64` that `int` cannot represent. The Go
specification leaves it implementation-dependent; this is the value on amd64. -/
def intOfOutOfRange : Int := -9223372036854775808

/-- Conversion `int(f)` of an integral non-negative `float64` (`none` is `+Inf`). -/
def intOfFloat : Option Nat → Int
  | some v => if v < 9223372036854775808 then (v : Int) else intOfOutOfRange
  | none => intOfOutOfRange

/-- ASCII decimal digit. -/
def isDigit (b : Nat) : Bool := 48 ≤ b && b ≤ 57

/-- Value of a string of decimal digits. -/
def digitsValue (s : GoString) : Nat :=
  s.foldl (fun acc b => 10 * acc + (b - 48)) 0

/-- Go `strconv.ParseFloat(s, 64)` on the unsigned decimal numerals `digits[.digits]` (at
least one digit): the nearest `float64`, and whether an error is returned (`+Inf` comes with
a range error). Every other string is answered as a syntax error, value `0`; the signed,
exponent, hexadecimal, infinity and NaN forms that Go also accepts are not modelled. -/
def strconvParseFloat (s : GoString) : Float64 × Bool :=
  let ip := s.takeWhile isDigit
  let rest := s.dropWhile isDigit
  let fp := rest.drop 1
  if (rest = [] ∨ (rest.head? = some 46 ∧ fp.all isDigit)) ∧ 0 < ip.length + fp.length then
    let f := roundFloat64 (digitsValue (ip ++ fp)) (10 ^ fp.length)
    (f, decide (f = .inf))
  else (.finite 0 0, true)

/-! ## Data model -/

/-- The Go struct `item`. -/
structure item where
  Id : GoString
  ReceiptId : GoString
  ShortDescription : GoString
  Price : GoString
  deriving DecidableEq, Repr

/-- The Go struct `receipt`. -/
structure receipt where
  ID : GoString
  Retailer : GoString
  PurchaseDate : GoString
  PurchaseTime : GoString
  Items : List item
  Total : GoString
  deriving DecidableEq, Repr

/-! ## calculatePoints -/

/-- The body of the loop over the items in `calculatePoints`. -/
def itemStep (points : Int) (i : item) : Int :=
  if (stringsTrim i.ShortDescription (str " \t\n\r")).length % 3 = 0 then
    let iP := (strconvParseFloat i.Price).1
    wrapInt (points + intOfFloat (mathCeil (iP.mul f64_0_2)))
  else points

/-- The method `(r *receipt) calculatePoints() int`; `none` when a slice expression panics. -/
def calculatePoints (r : receipt) : Option Int := do
  let points : Int := 0
  let tLen : Int := r.Total.length
  let points := r.Retailer.foldl
    (fun points b =>
      if (b ≥ 48 && b < 57) || (b ≥ 65 && b < 90) || (b ≥ 97 && b < 122) then
        wrapInt (points + 1)
      else points) points
  let t ← sliceFrom r.Total (tLen - 2)
  let points := if t = str "00" then wrapInt (points + 50) else points
  let points :=
    if t = str "25" ∨ t = str "50" ∨ t = str "75" ∨ t = str "00" then wrapInt (points + 25)
    else points
  let points := wrapInt (points + wrapInt (5 * ((r.Items.length : Int) / 2)))
  let points := r.Items.foldl itemStep points
  let d ← sliceFrom r.PurchaseDate ((r.PurchaseDate.length : Int) - 1)
  let points := if stringsContains (str "13579") d then wrapInt (points + 6) else points
  let h ← slice r.PurchaseTime 0 2
  let points := if h = str "14" ∨ h = str "15" then wrapInt (points + 10) else points
  return points

/-! ## Regular expressions of the validate tags

Go `regexp` works on the runes of the UTF-8 text. Every class of the six patterns holds
ASCII characters only, and an ASCII byte never lies inside a longer UTF-8 sequence, so
matching these patterns is matching on bytes: a byte of `128` or more belongs to no class. -/

/-- The class `\w`: `[0-9A-Za-z_]`. -/
def isWord (b : Nat) : Bool :=
  isDigit b || (65 ≤ b && b ≤ 90) || (97 ≤ b && b ≤ 122) || b == 95

/-- The class `\s`: `[\t\n\f\r ]`. -/
def isSpace (b : Nat) : Bool :=
  b == 9 || b == 10 || b == 12 || b == 13 || b == 32

/-- One item of a pattern: a class repeated exactly `n` times (a literal character is a
class of one byte, once), or a class repeated once or more. -/
inductive Piece where
  | rep (c : Nat → Bool) (n : Nat)
  | plus (c : Nat → Bool)

/-- A pattern: whether it starts with `^`, its items in order, whether it ends with `$`. -/
structure Regex where
  bol : Bool
  body : List Piece
  eol : Bool

/-- What is left of `s` after `n` leading bytes of class `c`, if it starts with them. -/
def repRest (c : Nat → Bool) : Nat → GoString → Option GoString
  | 0, s => some s
  | _ + 1, [] => none
  | n + 1, b :: s => if c b then repRest c n s else none

/-- Every remainder of `s` after one or more leading bytes of class `c`. -/
def plusRests (c : Nat → Bool) : GoString → List GoString
  | [] => []
  | b :: s => if c b then s :: plusRests c s else []

/-- Every remainder of `s` after a match of the items at its start. -/
def consume : List Piece → GoString → List GoString
  | [], s => [s]
  | .rep c n :: ps, s =>
      match repRest c n s with
      | none => []
      | some t => consume ps t
  | .plus c :: ps, s => (plusRests c s).foldr (fun t acc => consume ps t ++ acc) []

/-- Whether the pattern matches starting at the first byte of `s`. -/
def matchAt (re : Regex) (s : GoString) : Bool :=
  (consume re.body s).any (fun t => !re.eol || t.isEmpty)

/-- Whether the pattern matches starting at some position of `s`. -/
def searchFrom (re : Regex) : GoString → Bool
  | [] => matchAt re []
  | b :: s => matchAt re (b :: s) || searchFrom re s

/-- Go `regexp.Match(pattern, b)`: whether the text contains a match of the pattern. -/
def regexpMatch (re : Regex) (s : GoString) : Bool :=
  if re.bol then matchAt re s else searchFrom re s

/-- A literal character of a pattern. -/
def lit (x : Nat) : Piece := .rep (fun b => b == x) 1

/-- The pattern `^[\w\s\-]+$` of `item.ShortDescription`. -/
def reShortDescription : Regex :=
  ⟨true, [.plus (fun b => isWord b || isSpace b || b == 45)], true⟩

/-- The pattern `^\d+\.\d{2}$` of `item.Price` and of `receipt.Total`. -/
def rePrice : Regex :=
  ⟨true, [.plus isDigit, lit 46, .rep isDigit 2], true⟩

/-- The pattern `^[\w\s\-&]+$` of `receipt.Retailer`. -/
def reRetailer : Regex :=
  ⟨true, [.plus (fun b => isWord b || isSpace b || b == 45 || b == 38)], true⟩

/-- The pattern `\d{4}-\d{2}-\d{2}` of `receipt.PurchaseDate`. -/
def rePurchaseDate : Regex :=
  ⟨false, [.rep isDigit 4, lit 45, .rep isDigit 2, lit 45, .rep isDigit 2], false⟩

/-- The pattern `\d{2}:\d{2}` of `receipt.PurchaseTime`. -/
def rePurchaseTime : Regex :=
  ⟨false, [.rep isDigit 2, lit 58, .rep isDigit 2], false⟩

/-! ## structValidator -/

/-- A Go `error` result: `none` is `nil`, `some msg` an error with that text. -/
abbrev GoError := Option String

/-- A struct field as the reflection loop sees it: its `validate` tag, split at `=` (and the
argument of `len` split at `:`), with the value of the field. -/
inductive Field where
  | untagged
  | regex (re : Regex) (value : GoString)
  | len (op : String) (arg : Int) (value : List item)

/-- The fields of `item`, in declaration order. -/
def itemFields (i : item) : List Field :=
  [.untagged, .untagged, .regex reShortDescription i.ShortDescription, .regex rePrice i.Price]

/-- The fields of `receipt`, in declaration order. -/
def receiptFields (r : receipt) : List Field :=
  [.untagged, .regex reRetailer r.Retailer, .regex rePurchaseDate r.PurchaseDate,
   .regex rePurchaseTime r.PurchaseTime, .len "gte" 1 r.Items, .regex rePrice r.Total]

/-- The loop `for _, i := range *nv` of the `len` case: the first error ends it. -/
def validateElems (validateElem : item → GoError) : List item → GoError
  | [] => none
  | i :: is =>
      match validateElem i with
      | some err => some err
      | none => validateElems validateElem is

/-- The loop of `structValidator` over the fields it is given, in the order it visits them;
`validateElem` is the recursive call `structValidator[item]`. -/
def validateFields (validateElem : item → GoError) : List Field → GoError
  | [] => none
  | .untagged :: fs => validateFields validateElem fs
  | .regex re value :: fs =>
      if !regexpMatch re value then some "invalid schema"
      else validateFields validateElem fs
  | .len op arg value :: fs =>
      if op = "gte" ∧ (value.length : Int) < arg then some "invalid schema"
      else
        match validateElems validateElem value with
        | some err => some err
        | none => validateFields validateElem fs

/-- The instance `structValidator[item]`: the fields are visited from the last to the first.
`item` has no field tagged `len`, so no recursive call is made from it. -/
def structValidatorItem (i : item) : GoError :=
  validateFields (fun _ => none) (itemFields i).reverse

/-- The instance `structValidator[receipt]`. -/
def structValidator (r : receipt) : GoError :=
  validateFields structValidatorItem (receiptFields r).reverse

/-! ## The store and processReceipt -/

/-- A row of the table `receipts`. -/
structure receiptRow where
  id : GoString
  retailer : GoString
  purchase_date : GoString
  purchase_time : GoString
  total : GoString
  deriving DecidableEq, Repr

/-- A row of the table `items`. -/
structure itemRow where
  id : GoString
  receipt_id : GoString
  short_description : GoString
  price : GoString
  deriving DecidableEq, Repr

/-- The two tables. -/
structure DB where
  receipts : List receiptRow
  items : List itemRow
  deriving DecidableEq, Repr

/-- The INSERT statements that `processReceipt` sends, by the values that `fmt.Sprintf`
splices into the text, each between single quotes. -/
inductive Stmt where
  | insertReceipt (row : receiptRow)
  | insertItem (row : itemRow)
  deriving DecidableEq, Repr

/-- The text of a statement, as `fmt.Sprintf` builds it with one `'%s'` for each value. -/
def Stmt.text : Stmt → GoString
  | .insertReceipt row =>
      str "INSERT INTO receipts VALUES ('" ++ row.id ++ str "', '" ++ row.retailer ++
        str "', '" ++ row.purchase_date ++ str "', '" ++ row.purchase_time ++ str "', '" ++
        row.total ++ str "')"
  | .insertItem row =>
      str "INSERT INTO items VALUES ('" ++ row.id ++ str "', '" ++ row.receipt_id ++
        str "', '" ++ row.short_description ++ str "', '" ++ row.price ++ str "')"

/-- The values spliced into the text of a statement. -/
def Stmt.values : Stmt → List GoString
  | .insertReceipt row =>
      [row.id, row.retailer, row.purchase_date, row.purchase_time, row.total]
  | .insertItem row => [row.id, row.receipt_id, row.short_description, row.price]

/-- A value without the single quote (byte 39): spliced between single quotes, it stays
inside its own string literal. -/
def quoteFree (v : GoString) : Bool := decide (39 ∉ v)

/-- What the handler cannot decide by itself: the identifiers that `uuid.New().String()`
yields in turn, the failures of the storage engine (of `Begin`, of the `k`-th `Exec` of
the call, with the text of the error, and of `Commit`), and what the engine does, at the
`k`-th `Exec` of the call and on the state of the transaction, with a text in which a
spliced value holds a single quote, so that the text is not the INSERT of one row with
these values. -/
structure Env where
  uuids : Nat → GoString
  beginErr : Bool
  execErr : Nat → Option String
  commitErr : Bool
  otherExec : Nat → DB → GoString → Except String DB

/-- Text standing for the engine report of a primary key that is already present. -/
def constraintError : String := "constraint error: duplicate key"

/-- The INSERT of one row, the `k`-th `Exec` of the call, on the state of the transaction:
the engine fails, or the primary key is taken, or the row is added. -/
def execInsert (env : Env) (k : Nat) (txn : DB) : Stmt → Except String DB
  | .insertReceipt row =>
      match env.execErr k with
      | some e => .error e
      | none =>
          if txn.receipts.any (fun x => x.id = row.id) then .error constraintError
          else .ok { txn with receipts := txn.receipts ++ [row] }
  | .insertItem row =>
      match env.execErr k with
      | some e => .error e
      | none =>
          if txn.items.any (fun x => x.id = row.id ∧ x.receipt_id = row.receipt_id) then
            .error constraintError
          else .ok { txn with items := txn.items ++ [row] }

/-- One `txn.Exec`, the `k`-th of the call, on the state of the transaction. When no
spliced value holds a single quote the text is the INSERT of the row with these values;
otherwise the text is something else, and the environment says what the engine does with
it. -/
def txnExec (env : Env) (k : Nat) (txn : DB) (st : Stmt) : Except String DB :=
  if st.values.all quoteFree then execInsert env k txn st
  else env.otherExec k txn st.text

/-- What a handler answers: an error (`returnError`), the identifier of a stored receipt,
the points of a receipt, nothing because `log.Fatal` ends the process, or nothing because
the handler panics. -/
inductive Response where
  | error (statusCode : Nat) (message : String)
  | processed (id : GoString)
  | fatal
  | points (p : Int)
  | aborted
  deriving DecidableEq, Repr

/-- A request to `/receipts/process`: its method and the result of decoding its body. -/
structure Request where
  method : String
  body : Except String receipt

/-- The outcome of a call of `processReceipt`: the answer, the committed store after the
call, and the statements sent to the store, in order. -/
structure Outcome where
  response : Response
  db : DB
  issued : List Stmt
  deriving DecidableEq, Repr

/-- The loop of `processReceipt` over the items: the `k`-th `Exec` of the call inserts the
next item. The result is the state of the transaction, or the text of the first error,
with the statements sent. -/
def insertItems (env : Env) (receiptId : GoString) :
    Nat → DB → List item → Except String DB × List Stmt
  | _, txn, [] => (.ok txn, [])
  | k, txn, i :: is =>
      let st := Stmt.insertItem ⟨env.uuids k, receiptId, i.ShortDescription, i.Price⟩
      match txnExec env k txn st with
      | .error e => (.error e, [st])
      | .ok txn1 =>
          let rest := insertItems env receiptId (k + 1) txn1 is
          (rest.1, st :: rest.2)

/-- The handler `processReceipt` on the committed store `db`. The decoder cannot set `ID`
(tagged `json:"-"`), which keeps the fresh identifier. Every statement goes to the engine
through `txnExec`, which reads its text. A transaction that is not committed is rolled back
by the deferred `Rollback`; the result of `Commit` is not looked at. -/
def processReceipt (env : Env) (db : DB) (req : Request) : Outcome :=
  if req.method ≠ "POST" then
    ⟨.error 405 "method not allowed, /receipts/process only accepts POST requests", db, []⟩
  else
    match req.body with
    | .error e => ⟨.error 500 e, db, []⟩
    | .ok decoded =>
        let sR : receipt := { decoded with ID := env.uuids 0 }
        match structValidator sR with
        | some _ => ⟨.error 400 "The receipt is invalid", db, []⟩
        | none =>
            if env.beginErr then ⟨.fatal, db, []⟩
            else
              let st := Stmt.insertReceipt
                ⟨sR.ID, sR.Retailer, sR.PurchaseDate, sR.PurchaseTime, sR.Total⟩
              match txnExec env 0 db st with
              | .error e => ⟨.error 500 e, db, [st]⟩
              | .ok txn =>
                  match insertItems env sR.ID 1 txn sR.Items with
                  | (.error e, sts) => ⟨.error 500 e, db, st :: sts⟩
                  | (.ok txn1, sts) =>
                      ⟨.processed sR.ID, if env.commitErr then db else txn1, st :: sts⟩

/-! ## getReceiptById and getReceiptPoints -/

/-- An `error` value that comes from `database/sql`: `sql.ErrNoRows`, or another error with
its text. -/
inductive SqlError where
  | errNoRows
  | other (msg : String)
  deriving DecidableEq, Repr

/-- The text `err.Error()`. -/
def SqlError.text : SqlError → String
  | .errNoRows => "sql: no rows in result set"
  | .other msg => msg

/-- The text of the query of the receipt row, as `fmt.Sprintf` builds it. -/
def selectReceiptText (id : GoString) : GoString :=
  str "SELECT * from receipts where receipts.id = '" ++ id ++ str "'"

/-- The text of the query of the item rows, as `fmt.Sprintf` builds it. -/
def selectItemsText (id : GoString) : GoString :=
  str "SELECT * from items where items.receipt_id = '" ++ id ++ str "'"

/-- What a read cannot decide by itself: a failure of the query of the receipt row (it
comes out of `row.Scan`), an error of `db.Query` for the item rows, the order in which the
engine returns the item rows, a failure of the `k`-th `rows.Scan`, a failure of the
iteration (`rows.Next` stops after `k` rows and `rows.Err` reports the error), and the
rows that the engine returns for the text of a query in which the identifier holds a single
quote, so that the text is not the selection by that identifier. -/
structure ReadEnv where
  rowErr : Option String
  queryErr : Option SqlError
  order : List itemRow → List itemRow
  scanErr : Nat → Option String
  iterErr : Option (Nat × String)
  otherRow : DB → GoString → Option receiptRow
  otherRows : DB → GoString → List itemRow

/-- The loop `for rows.Next()` of `getReceiptById` over the rows the iteration delivers:
the `k`-th `rows.Scan` fails with an error, or the item is appended to `r.Items`. -/
def scanItems (env : ReadEnv) : Nat → List itemRow → List item → Except String (List item)
  | _, [], acc => .ok acc
  | k, row :: rows, acc =>
      match env.scanErr k with
      | some e => .error e
      | none =>
          scanItems env (k + 1) rows
            (acc ++ [⟨row.id, row.receipt_id, row.short_description, row.price⟩])

/-- The first row that the query of the receipt row returns, if there is one. When `id`
holds no single quote the text is the selection of the rows with that identifier. -/
def queryReceiptRow (env : ReadEnv) (db : DB) (id : GoString) : Option receiptRow :=
  if quoteFree id then db.receipts.find? (fun x => x.id = id)
  else env.otherRow db (selectReceiptText id)

/-- The rows that the query of the item rows returns, in the order of the engine. When `id`
holds no single quote the text is the selection of the item rows of that receipt. -/
def queryItemRows (env : ReadEnv) (db : DB) (id : GoString) : List itemRow :=
  if quoteFree id then env.order (db.items.filter (fun x => x.receipt_id = id))
  else env.otherRows db (selectItemsText id)

/-- The method `getReceiptById`, with its two results `(*receipt, error)`. After the loop,
`return nil, err` returns the `err` of the function body, which is `nil` once `db.Query`
has succeeded: the `err` of `rows.Scan` is declared inside the loop. -/
def getReceiptById (env : ReadEnv) (db : DB) (id : GoString) :
    Option receipt × Option SqlError :=
  match env.rowErr with
  | some e => (none, some (.other e))
  | none =>
      match queryReceiptRow env db id with
      | none => (none, none)
      | some row =>
          match env.queryErr with
          | some .errNoRows => (none, none)
          | some (.other e) => (none, some (.other e))
          | none =>
              let all := queryItemRows env db id
              let delivered :=
                match env.iterErr with
                | some (k, _) => all.take k
                | none => all
              match scanItems env 0 delivered [] with
              | .error e => (none, some (.other e))
              | .ok items =>
                  match env.iterErr with
                  | some _ => (none, none)
                  | none =>
                      (some ⟨row.id, row.retailer, row.purchase_date, row.purchase_time,
                        items, row.total⟩, none)

/-- The handler `getReceiptPoints` for the method and the path value `id` of a request. -/
def getReceiptPoints (env : ReadEnv) (db : DB) (method : String) (id : GoString) : Response :=
  if method ≠ "GET" then
    .error 405 "method not allowed, /receipts/\x7bid\x7d/points only accepts GET requests"
  else if id = [] then
    .error 404 "A valid id must be specified, cannot be an empty string"
  else
    match getReceiptById env db id with
    | (_, some err) => .error 500 err.text
    | (none, none) => .error 404 "No receipt found for that id"
    | (some rR, none) =>
        match calculatePoints rR with
        | some p => .points p
        | none => .aborted

/-- A read without storage failure, the item rows in the order of the table. -/
def quietRead : ReadEnv :=
  ⟨none, none, fun rows => rows, fun _ => none, none, fun _ _ => none, fun _ _ => []⟩

/-- The item rows that `processReceipt` writes for the items of a receipt, the first with
the `k`-th identifier. -/
def itemRows (env : Env) (receiptId : GoString) : Nat → List item → List itemRow
  | _, [] => []
  | k, i :: is =>
      ⟨env.uuids k, receiptId, i.ShortDescription, i.Price⟩ :: itemRows env receiptId (k + 1) is

/-- The state of the transaction of `processReceipt` after the INSERT of the receipt row
and of every item row of `sR`, or the text of the first error. -/
def writeRows (env : Env) (db : DB) (sR : receipt) : Except String DB :=
  match txnExec env 0 db
      (.insertReceipt ⟨sR.ID, sR.Retailer, sR.PurchaseDate, sR.PurchaseTime, sR.Total⟩) with
  | .error e => .error e
  | .ok txn => (insertItems env sR.ID 1 txn sR.Items).1

/-- The store with the receipt row of `sR` and all of its item rows added. -/
def withReceipt (env : Env) (db : DB) (sR : receipt) : DB :=
  ⟨db.receipts ++ [⟨sR.ID, sR.Retailer, sR.PurchaseDate, sR.PurchaseTime, sR.Total⟩],
   db.items ++ itemRows env sR.ID 1 sR.Items⟩

/-! ## The awards of calculatePoints, one by one -/

/-- The bytes for which the loop over the retailer name adds a point. -/
def counted (b : Nat) : Bool :=
  (b ≥ 48 && b < 57) || (b ≥ 65 && b < 90) || (b ≥ 97 && b < 122)

/-- The award for the total, from its last two bytes `t`. -/
def totalAward (t : GoString) : Int :=
  (if t = str "00" then 50 else 0) +
    (if t = str "25" ∨ t = str "50" ∨ t = str "75" ∨ t = str "00" then 25 else 0)

/-- The award for one item. -/
def itemAward (i : item) : Int :=
  if (stringsTrim i.ShortDescription (str " \t\n\r")).length % 3 = 0 then
    intOfFloat (mathCeil ((strconvParseFloat i.Price).1.mul f64_0_2))
  else 0

/-- The award for the date, from its last byte `d`. -/
def dateAward (d : GoString) : Int :=
  if stringsContains (str "13579") d then 6 else 0

/-- The award for the time, from its first two bytes `h`. -/
def timeAward (h : GoString) : Int :=
  if h = str "14" ∨ h = str "15" then 10 else 0

/-- The sum of all awards of a receipt, before reduction to 64 bits. -/
def rawPoints (r : receipt) : Int :=
  (r.Retailer.countP counted : Int) + totalAward (r.Total.drop (r.Total.length - 2)) +
    5 * ((r.Items.length : Int) / 2) + (r.Items.map itemAward).sum +
    dateAward (r.PurchaseDate.drop (r.PurchaseDate.length - 1)) +
    timeAward (r.PurchaseTime.take 2)

/-! ## The scoring rules in the words of the specification -/

/-- An ASCII letter or digit: `[A-Za-z0-9]`. -/
def isAlnum (b : Nat) : Bool :=
  (48 ≤ b && b ≤ 57) || (65 ≤ b && b ≤ 90) || (97 ≤ b && b ≤ 122)

/-- The points for a total whose two fractional digits are `d1 d2`: 75 for `00`, 25 for
`25`, `50` and `75`, nothing otherwise. -/
def fracAward (d1 d2 : Nat) : Int :=
  if d1 = 48 ∧ d2 = 48 then 75
  else if (d1 = 50 ∧ d2 = 53) ∨ (d1 = 53 ∧ d2 = 48) ∨ (d1 = 55 ∧ d2 = 53) then 25
  else 0

/-- The validated shape of a total or price: the digits `ds`, one or more, then a dot, then
the two digits `d1 d2`. -/
def decimalShape (s ds : GoString) (d1 d2 : Nat) : Prop :=
  ds ≠ [] ∧ (∀ b ∈ ds, isDigit b = true) ∧ isDigit d1 = true ∧ isDigit d2 = true ∧
    s = ds ++ [46, d1, d2]

/-- The shape `YYYY-MM-DD`: four digits, `-`, two digits, `-`, two digits, nothing else. -/
def dateShape (s : GoString) (y1 y2 y3 y4 m1 m2 d1 d2 : Nat) : Prop :=
  (∀ b ∈ [y1, y2, y3, y4, m1, m2, d1, d2], isDigit b = true) ∧
    s = [y1, y2, y3, y4, 45, m1, m2, 45, d1, d2]

/-- The shape `HH:MM`: two digits, `:`, two digits, nothing else. -/
def timeShape (s : GoString) (h1 h2 m1 m2 : Nat) : Prop :=
  (∀ b ∈ [h1, h2, m1, m2], isDigit b = true) ∧ s = [h1, h2, 58, m1, m2]

/-- A total or price of the validated shape: one or more digits, a dot, two digits. -/
def validDecimal (s : GoString) : Prop :=
  ∃ ds d1 d2, decimalShape s ds d1 d2

/-- A retailer name as the data model wants it: not empty, made of word characters,
whitespace, `-` and `&`. -/
def validRetailer (s : GoString) : Prop :=
  s ≠ [] ∧ ∀ b ∈ s, (isWord b || isSpace b || b == 45 || b == 38) = true

/-- An item description as the data model wants it: not empty, made of word characters,
whitespace and `-`. -/
def validDescription (s : GoString) : Prop :=
  s ≠ [] ∧ ∀ b ∈ s, (isWord b || isSpace b || b == 45) = true

/-- The string without the bytes of class `ws` at its two ends. -/
def stripped (ws : Nat → Bool) (s : GoString) : GoString :=
  (s.dropWhile ws).rdropWhile ws

/-- The four bytes that `calculatePoints` trims: space, tab, line feed, carriage return. -/
def isTrimChar (b : Nat) : Bool :=
  b == 32 || b == 9 || b == 10 || b == 13

/-- The exact value of a price `digits.dd`, in hundredths. -/
def priceCents (s : GoString) : Nat :=
  digitsValue (s.filter isDigit)

/-- The points of the per-item rule for one item: when the length of the description
without the bytes of class `ws` at its ends is a multiple of 3, the price times `0.2`
rounded up, that is `⌈cents / 500⌉`; nothing otherwise. -/
def ruleItemAward (ws : Nat → Bool) (i : item) : Int :=
  if (stripped ws i.ShortDescription).length % 3 = 0 then
    ((priceCents i.Price + 499) / 500 : Nat)
  else 0

/-- The number written by two decimal digits. -/
def twoDigits (d1 d2 : Nat) : Nat := 10 * (d1 - 48) + (d2 - 48)

/-- The lengths for which the three slice expressions of `calculatePoints` are in range. -/
def slicesOk (r : receipt) : Prop :=
  2 ≤ r.Total.length ∧ 1 ≤ r.PurchaseDate.length ∧ 2 ≤ r.PurchaseTime.length

instance (r : receipt) : Decidable (slicesOk r) := by
  unfold slicesOk; infer_instance

/-- The checks of `structValidator[receipt]`, in the order it makes them. -/
def accepts (r : receipt) : Prop :=
  regexpMatch rePrice r.Total = true ∧ 1 ≤ r.Items.length ∧
    (∀ i ∈ r.Items, structValidatorItem i = none) ∧
    regexpMatch rePurchaseTime r.PurchaseTime = true ∧
    regexpMatch rePurchaseDate r.PurchaseDate = true ∧
    regexpMatch reRetailer r.Retailer = true

instance (r : receipt) : Decidable (accepts r) := by
  unfold accepts; infer_instance

/-- The points of `r` with its items replaced by `l` (`0` if `calculatePoints` panics). -/
def pointsWith (r : receipt) (l : List item) : Int :=
  (calculatePoints { r with Items := l }).getD 0

/-! ## Receipts of the test suite -/

/-- An item as the JSON decoder builds it: description and price only. -/
def mkItem (description price : String) : item :=
  { Id := [], ReceiptId := [], ShortDescription := str description, Price := str price }

/-- First receipt of `TestServer` (expected 15 points). -/
def testReceipt1 : receipt :=
  { ID := [], Retailer := str "Walgreens", PurchaseDate := str "2022-01-02",
    PurchaseTime := str "08:13", Total := str "2.65",
    Items := [mkItem "Pepsi - 12-oz" "1.25", mkItem "Dasani" "1.40"] }

/-- Second receipt of `TestServer` (expected 31 points). -/
def testReceipt2 : receipt :=
  { ID := [], Retailer := str "Target", PurchaseDate := str "2022-01-02",
    PurchaseTime := str "13:13", Total := str "1.25",
    Items := [mkItem "Pepsi - 12-oz" "1.25"] }

/-- Third receipt of `TestServer` (expected 28 points). -/
def testReceipt3 : receipt :=
  { ID := [], Retailer := str "Target", PurchaseDate := str "2022-01-01",
    PurchaseTime := str "13:01", Total := str "35.35",
    Items := [mkItem "Mountain Dew 12PK" "6.49", mkItem "Emils Cheese Pizza" "12.25",
      mkItem "Knorr Creamy Chicken" "1.26", mkItem "Doritos Nacho Cheese" "3.35",
      mkItem "   Klarbrunn 12-PK 12 FL OZ  " "12.00"] }

/-- Fourth receipt of `TestServer` (expected 109 points). -/
def testReceipt4 : receipt :=
  { ID := [], Retailer := str "M&M Corner Market", PurchaseDate := str "2022-03-20",
    PurchaseTime := str "14:33", Total := str "9.00",
    Items := [mkItem "Gatorade" "2.25", mkItem "Gatorade" "2.25", mkItem "Gatorade" "2.25",
      mkItem "Gatorade" "2.25"] }

/-- An item whose description `ab` ends with a form feed, priced `1.00`. -/
def formFeedItem : item :=
  { Id := [], ReceiptId := [], ShortDescription := str "ab" ++ [12], Price := str "1.00" }

/-- An item described `abc` and priced `200000000000000.01`. -/
def largePriceItem : item := mkItem "abc" "200000000000000.01"

/-- An item described `abc` and priced `46116860184273870000.00`: the validator admits it
and it earns `2^63 - 1024` points. -/
def hugePriceItem : item := mkItem "abc" "46116860184273870000.00"

/-- The fourth test receipt, total `9.00`, with two items: the huge one and one that earns
982 points. With the total `0.01` it scores `2^63 - 13`. -/
def totalOverflowReceipt : receipt :=
  { testReceipt4 with Items := [hugePriceItem, mkItem "abc" "4910.00"] }

/-- The third test receipt, dated `2022-01-01`, with two items: the huge one and one that
earns 1010 points. Dated `2022-01-02` it scores `2^63 - 3`. -/
def dateOverflowReceipt : receipt :=
  { testReceipt3 with Items := [hugePriceItem, mkItem "abc" "5050.00"] }

/-- The fourth test receipt, bought at `14:33`, with two items: the huge one and one that
earns 927 points. At `00:00` it scores `2^63 - 3`. -/
def timeOverflowReceipt : receipt :=
  { testReceipt4 with Items := [hugePriceItem, mkItem "abc" "4635.00"] }

/-- The second test receipt with two items described `abc` and priced
`23058430092136939520.00`, that is `5 * 2^62`. -/
def overflowReceipt : receipt :=
  { testReceipt2 with
    Items := [mkItem "abc" "23058430092136939520.00", mkItem "abc" "23058430092136939520.00"] }

/-! ## Stores that processReceipt builds, reads without failure -/

/-- Every item row of the store belongs to a receipt row of the store. -/
def wellFormed (db : DB) : Prop :=
  ∀ it ∈ db.items, ∃ rc ∈ db.receipts, rc.id = it.receipt_id

/-- A read without storage failure, the engine returning the item rows in any order. -/
def quiet (env : ReadEnv) : Prop :=
  env.rowErr = none ∧ env.queryErr = none ∧ (∀ k, env.scanErr k = none) ∧
    env.iterErr = none ∧ ∀ l, (env.order l).Perm l

/-- No value that `processReceipt` splices into a statement for the receipt `sR` holds a
single quote: neither the identifiers nor a field of the receipt or of one of its items. -/
def spliceSafe (env : Env) (sR : receipt) : Prop :=
  (∀ k, 39 ∉ env.uuids k) ∧ 39 ∉ sR.ID ∧ 39 ∉ sR.Retailer ∧ 39 ∉ sR.PurchaseDate ∧
    39 ∉ sR.PurchaseTime ∧ 39 ∉ sR.Total ∧
    ∀ i ∈ sR.Items, 39 ∉ i.ShortDescription ∧ 39 ∉ i.Price

/-- A call of `processReceipt` in which no single quote reaches a statement through the
identifiers or through the two fields whose patterns are not anchored: the identifiers
hold none, and neither do the date and the time of the receipt in the body. -/
def cleanCall (env : Env) (req : Request) : Prop :=
  (∀ k, 39 ∉ env.uuids k) ∧
    ∀ r, req.body = .ok r → 39 ∉ r.PurchaseDate ∧ 39 ∉ r.PurchaseTime

/-- `Later db db2`: clean calls of `processReceipt`, each with any request and any failures
of the engine, lead from the committed store `db` to the committed store `db2`. -/
inductive Later : DB → DB → Prop where
  | refl (db : DB) : Later db db
  | step {db db1 : DB} (env : Env) (req : Request) :
      cleanCall env req → Later db db1 → Later db (processReceipt env db1 req).db

/-- The item that `rows.Scan` fills from a row. -/
def itemOfRow (row : itemRow) : item :=
  ⟨row.id, row.receipt_id, row.short_description, row.price⟩

/-! ## Stores and environments for the examples -/

/-- Identifiers for the examples: `id0`, `id1`, ... -/
def testUuids (k : Nat) : GoString := str "id" ++ [48 + k]

/-- An engine that refuses every text that is not the INSERT of one row. -/
def refuseOther : Nat → DB → GoString → Except String DB :=
  fun _ _ _ => .error "syntax error"

/-- An environment in which the storage engine never fails. -/
def quietEnv : Env := ⟨testUuids, false, fun _ => none, false, refuseOther⟩

/-- An environment in which only `Commit` fails. -/
def commitFails : Env := ⟨testUuids, false, fun _ => none, true, refuseOther⟩

/-- An environment in which the second `Exec` of a call, the INSERT of the first item row,
fails. -/
def itemInsertFails : Env :=
  ⟨testUuids, false, fun k => if k = 1 then some "write error" else none, false,
    refuseOther⟩

/-- The empty store. -/
def emptyDB : DB := ⟨[], []⟩

/-- The store after the second test receipt was posted to the empty store. -/
def storeWithReceipt2 : DB :=
  (processReceipt quietEnv emptyDB ⟨"POST", .ok testReceipt2⟩).db

/-- An environment without failure whose identifiers are `x0`, `x1`, ... -/
def quietEnvX : Env :=
  ⟨fun k => str "x" ++ [48 + k], false, fun _ => none, false, refuseOther⟩

/-- An environment without failure whose identifiers are `y0`, `y1`, ... -/
def quietEnvY : Env :=
  ⟨fun k => str "y" ++ [48 + k], false, fun _ => none, false, refuseOther⟩

/-- A read without storage failure in which the engine returns the item rows in reverse
order. -/
def reversedRead : ReadEnv :=
  ⟨none, none, List.reverse, fun _ => none, none, fun _ _ => none, fun _ _ => []⟩

/-- A read in which the iteration over the item rows fails before the first row. -/
def iterationFails : ReadEnv :=
  ⟨none, none, fun rows => rows, fun _ => none, some (0, "read error"), fun _ _ => none,
    fun _ _ => []⟩

/-- An item described `abc` whose price is `1` followed by 309 zeros, then `.00`. -/
def longPriceItem : item :=
  { Id := [], ReceiptId := [], ShortDescription := str "abc",
    Price := 49 :: (List.replicate 309 48 ++ str ".00") }

/-- The second test receipt with a single quote (byte 39) after the date and before the
time. -/
def quoteReceipt : receipt :=
  { testReceipt2 with
    PurchaseDate := str "2022-01-02" ++ [39], PurchaseTime := 39 :: str "13:13" }

end Receipt

/-! # Theorems -/

namespace Receipt

set_option maxRecDepth 20000
set_option exponentiation.threshold 1024

/-! ## Arithmetic of `int` -/

theorem wrapInt_add_left (a b : Int) : wrapInt (wrapInt a + b) = wrapInt (a + b) := by
  unfold wrapInt; omega

theorem wrapInt_add_right (a b : Int) : wrapInt (a + wrapInt b) = wrapInt (a + b) := by
  unfold wrapInt; omega

theorem wrapInt_idem (a : Int) : wrapInt (wrapInt a) = wrapInt a := by
  unfold wrapInt; omega

theorem wrapInt_of_range {a : Int} (h1 : -9223372036854775808 ≤ a)
    (h2 : a < 9223372036854775808) : wrapInt a = a := by
  unfold wrapInt; omega

theorem wrapInt_range (a : Int) :
    -9223372036854775808 ≤ wrapInt a ∧ wrapInt a < 9223372036854775808 := by
  unfold wrapInt; omega

/-! ## The loops of calculatePoints -/

theorem retailer_loop (s : GoString) (p : Int) :
    wrapInt (s.foldl (fun points b =>
      if (b ≥ 48 && b < 57) || (b ≥ 65 && b < 90) || (b ≥ 97 && b < 122) then
        wrapInt (points + 1)
      else points) p) = wrapInt (p + (s.countP counted : Int)) := by
  induction s generalizing p with
  | nil => simp
  | cons b s ih =>
    rw [List.foldl_cons, ih, List.countP_cons]
    by_cases hb : counted b = true
    · have hb2 := hb
      unfold counted at hb2
      rw [if_pos hb2, if_pos hb, wrapInt_add_left]
      congr 1; push_cast; ring
    · have hb2 := hb
      unfold counted at hb2
      rw [if_neg hb2, if_neg hb]
      simp

theorem retailer_loop_range (s : GoString) (p : Int) (hp : wrapInt p = p) :
    wrapInt (s.foldl (fun points b =>
      if (b ≥ 48 && b < 57) || (b ≥ 65 && b < 90) || (b ≥ 97 && b < 122) then
        wrapInt (points + 1)
      else points) p) = s.foldl (fun points b =>
      if (b ≥ 48 && b < 57) || (b ≥ 65 && b < 90) || (b ≥ 97 && b < 122) then
        wrapInt (points + 1)
      else points) p := by
  induction s generalizing p with
  | nil => simpa using hp
  | cons b s ih =>
    rw [List.foldl_cons]
    apply ih
    split
    · exact wrapInt_idem _
    · exact hp

theorem itemStep_eq (p : Int) (i : item) :
    wrapInt (itemStep p i) = wrapInt (p + itemAward i) := by
  unfold itemStep itemAward
  split
  · simp only [wrapInt_idem]
  · simp

theorem itemStep_range (p : Int) (i : item) (hp : wrapInt p = p) :
    wrapInt (itemStep p i) = itemStep p i := by
  unfold itemStep
  split
  · exact wrapInt_idem _
  · exact hp

theorem item_loop (l : List item) (p : Int) :
    wrapInt (l.foldl itemStep p) = wrapInt (p + (l.map itemAward).sum) := by
  induction l generalizing p with
  | nil => simp
  | cons i l ih =>
    rw [List.foldl_cons, ih, List.map_cons, List.sum_cons, ← wrapInt_add_left, itemStep_eq,
      wrapInt_add_left]
    congr 1; ring

theorem item_loop_range (l : List item) (p : Int) (hp : wrapInt p = p) :
    wrapInt (l.foldl itemStep p) = l.foldl itemStep p := by
  induction l generalizing p with
  | nil => simpa using hp
  | cons i l ih =>
    rw [List.foldl_cons]
    exact ih _ (itemStep_range p i hp)

theorem item_loop_val (l : List item) (p : Int) (hp : wrapInt p = p) :
    l.foldl itemStep p = wrapInt (p + (l.map itemAward).sum) := by
  rw [← item_loop_range l p hp, item_loop]

theorem sliceFrom_tail (s : GoString) (k : Nat) :
    sliceFrom s ((s.length : Int) - k) =
      if k ≤ s.length then some (s.drop (s.length - k)) else none := by
  unfold sliceFrom
  by_cases h : k ≤ s.length
  · have h1 : (0:Int) ≤ (s.length : Int) - k ∧ (s.length : Int) - k ≤ s.length := by omega
    rw [if_pos h1, if_pos h]
    congr 2
    omega
  · have h1 : ¬ ((0:Int) ≤ (s.length : Int) - k ∧ (s.length : Int) - k ≤ s.length) := by omega
    rw [if_neg h1, if_neg h]

/-- The value of `calculatePoints`: it panics unless the three slices are in range, and
otherwise returns the sum of the awards reduced to 64 bits. -/
theorem calculatePoints_eq (r : receipt) :
    calculatePoints r = if slicesOk r then some (wrapInt (rawPoints r)) else none := by
  unfold calculatePoints slicesOk
  have hT := sliceFrom_tail r.Total 2
  have hD := sliceFrom_tail r.PurchaseDate 1
  simp only [Nat.cast_ofNat, Nat.cast_one] at hT hD
  simp only [bind, pure, hT, hD, slice]
  by_cases h1 : 2 ≤ r.Total.length
  · by_cases h2 : 1 ≤ r.PurchaseDate.length
    · by_cases h3 : 2 ≤ r.PurchaseTime.length
      · simp only [h1, h2, h3, if_true, Option.bind, and_self, Nat.zero_le, true_and,
          List.drop_zero, Option.some.injEq]
        have hA : List.foldl (fun points b =>
            if (b ≥ 48 && b < 57) || (b ≥ 65 && b < 90) || (b ≥ 97 && b < 122) then
              wrapInt (points + 1)
            else points) 0 r.Retailer = wrapInt (r.Retailer.countP counted : Int) := by
          rw [← retailer_loop_range r.Retailer 0 (by decide), retailer_loop, Int.zero_add]
        simp only [ge_iff_le] at hA ⊢
        rw [hA]
        unfold rawPoints totalAward dateAward timeAward
        rw [item_loop_val _ _ (wrapInt_idem _)]
        split_ifs <;>
        (simp only [wrapInt_add_left, wrapInt_add_right, wrapInt_idem]
         first | rfl | (congr 1; ring1))
      · simp [h1, h2, h3, Option.bind]
    · simp [h1, h2, Option.bind]
  · simp [h1, Option.bind]

/-! ## String literals -/

theorem str_00 : str "00" = [48, 48] := by decide
theorem str_25 : str "25" = [50, 53] := by decide
theorem str_50 : str "50" = [53, 48] := by decide
theorem str_75 : str "75" = [55, 53] := by decide
theorem str_14 : str "14" = [49, 52] := by decide
theorem str_15 : str "15" = [49, 53] := by decide
theorem str_odd : str "13579" = [49, 51, 53, 55, 57] := by decide
theorem str_cutset : str " \t\n\r" = [32, 9, 10, 13] := by decide

/-! ## Changing one field -/

/-- Two receipts with the same slices in range and awards that differ by `k`: the points
differ by `k`, added as Go adds; the sum is exact when it fits in 64 bits. -/
theorem calculatePoints_shift (r r0 : receipt) (k : Int) (hk : 0 ≤ k)
    (hs : slicesOk r ↔ slicesOk r0) (hraw : rawPoints r = rawPoints r0 + k) :
    calculatePoints r = (calculatePoints r0).map (fun p => wrapInt (p + k)) ∧
      ∀ p, calculatePoints r0 = some p → p + k < 9223372036854775808 →
        calculatePoints r = some (p + k) := by
  rw [calculatePoints_eq r, calculatePoints_eq r0]
  by_cases h : slicesOk r0
  · have h2 : slicesOk r := hs.mpr h
    rw [if_pos h, if_pos h2, hraw]
    refine ⟨by simp [wrapInt_add_left], ?_⟩
    intro p hp hlt
    simp only [Option.some.injEq] at hp
    subst hp
    rw [← wrapInt_add_left]
    have := wrapInt_range (rawPoints r0)
    rw [wrapInt_of_range (by omega) hlt]
  · have h2 : ¬ slicesOk r := fun h3 => h (hs.mp h3)
    rw [if_neg h, if_neg h2]
    simp

theorem drop_last_two (ds : GoString) (a d1 d2 : Nat) :
    (ds ++ [a, d1, d2]).drop ((ds ++ [a, d1, d2]).length - 2) = [d1, d2] := by
  have h : ds ++ [a, d1, d2] = (ds ++ [a]) ++ [d1, d2] := by simp
  rw [h, List.length_append]
  simp only [List.length_cons, List.length_nil, Nat.add_sub_cancel]
  exact List.drop_left' rfl

theorem totalAward_pair (d1 d2 : Nat) : totalAward [d1, d2] = fracAward d1 d2 := by
  unfold totalAward fracAward
  simp only [str_00, str_25, str_50, str_75, List.cons.injEq, and_true]
  split_ifs <;> first | rfl | omega

/-! ## C1 -/

/-- C1, on the code: the loop over the retailer name compares with `<` against the last
character of each range, so `9`, `Z` and `z` earn no point. With the retailer `Z9z`, three
ASCII letters or digits, the second test receipt scores 25, where the equation of the
claim (the score with an empty retailer plus the number of letters and digits) gives 28. -/
theorem C1_last_of_each_range_not_counted :
    calculatePoints { testReceipt2 with Retailer := str "Z9z" } = some 25 ∧
      (calculatePoints { testReceipt2 with Retailer := str "" }).map
        (fun p => p + ((str "Z9z").countP isAlnum : Int)) = some 28 := by
  decide

/-! ## C3 -/

/-- C3 as stated fails where the sum passes the largest `int`: the receipt
`totalOverflowReceipt`, which `structValidator` accepts and whose total is `9.00`, scores
`2^63 - 13` with the total `0.01`, and as it is it scores `-2^63 + 62`, not 75 more. -/
theorem C3_counterexample :
    structValidator totalOverflowReceipt = none ∧
      decimalShape totalOverflowReceipt.Total (str "9") 48 48 ∧
      fracAward 48 48 = 75 ∧
      calculatePoints { totalOverflowReceipt with Total := str "0.01" } =
        some 9223372036854775795 ∧
      calculatePoints totalOverflowReceipt = some (-9223372036854775746) ∧
      calculatePoints totalOverflowReceipt ≠
        (calculatePoints { totalOverflowReceipt with Total := str "0.01" }).map
          (fun p => p + fracAward 48 48) := by
  refine ⟨by decide, by unfold decimalShape; decide, by decide, by decide, by decide,
    by decide⟩

/-- C3, amended: for a total of the validated shape (one or more digits, a dot, two digits
`d1 d2`), the points are those of the same receipt with total `0.01` plus 75 when the
fractional digits are `00`, 25 when they are `25`, `50` or `75`, and 0 otherwise, the sum
being the addition of Go `int`, which wraps at 64 bits; it is the sum of the integers
whenever that sum is below `2^63`. -/
theorem C3_total_award (r : receipt) (ds : GoString) (d1 d2 : Nat)
    (hshape : decimalShape r.Total ds d1 d2) :
    calculatePoints r =
        (calculatePoints { r with Total := str "0.01" }).map
          (fun p => wrapInt (p + fracAward d1 d2)) ∧
      ∀ p, calculatePoints { r with Total := str "0.01" } = some p →
        p + fracAward d1 d2 < 9223372036854775808 →
        calculatePoints r = some (p + fracAward d1 d2) := by
  have hT : r.Total = ds ++ [46, d1, d2] := hshape.2.2.2.2
  apply calculatePoints_shift
  · unfold fracAward; split_ifs <;> decide
  · unfold slicesOk
    have h4 : (str "0.01").length = 4 := by decide
    simp only [hT, h4, List.length_append, List.length_cons, List.length_nil]
    constructor <;> intro h <;> omega
  · unfold rawPoints
    have h0 : totalAward ((str "0.01").drop ((str "0.01").length - 2)) = 0 := by decide
    simp only [hT, drop_last_two, totalAward_pair, h0]
    ring

/-- Witness of C3: the fourth test receipt, total `9.00`, scores 34 with the total `0.01`
and 75 more as it is. -/
theorem C3_total_award_witness :
    decimalShape testReceipt4.Total (str "9") 48 48 ∧
    calculatePoints { testReceipt4 with Total := str "0.01" } = some 34 ∧
    calculatePoints testReceipt4 = some (34 + fracAward 48 48) :=
  ⟨by unfold decimalShape; decide, by decide,
   (C3_total_award testReceipt4 (str "9") 48 48 (by unfold decimalShape; decide)).2 34
     (by decide) (by decide)⟩

/-! ## C6 -/

theorem dateAward_last (d1 d2 : Nat) (h1 : isDigit d1 = true) (h2 : isDigit d2 = true) :
    dateAward [d2] = if twoDigits d1 d2 % 2 = 1 then 6 else 0 := by
  unfold dateAward twoDigits
  unfold isDigit at h1 h2
  simp only [Bool.and_eq_true, decide_eq_true_eq] at h1 h2
  rw [str_odd]
  simp only [stringsContains, startsWith, Bool.and_true, Bool.or_false, Bool.or_eq_true,
    beq_iff_eq, Bool.and_false]
  split_ifs <;> first | rfl | omega

/-- C6 as stated fails where the sum passes the largest `int`: the receipt
`dateOverflowReceipt`, which `structValidator` accepts and which is dated `2022-01-01`,
scores `2^63 - 3` when dated `2022-01-02`, and as it is it scores `-2^63 + 3`, not 6
more. -/
theorem C6_counterexample :
    structValidator dateOverflowReceipt = none ∧
      dateShape dateOverflowReceipt.PurchaseDate 50 48 50 50 48 49 48 49 ∧
      twoDigits 48 49 % 2 = 1 ∧
      calculatePoints { dateOverflowReceipt with PurchaseDate := str "2022-01-02" } =
        some 9223372036854775805 ∧
      calculatePoints dateOverflowReceipt = some (-9223372036854775805) ∧
      calculatePoints dateOverflowReceipt ≠
        (calculatePoints { dateOverflowReceipt with PurchaseDate := str "2022-01-02" }).map
          (fun p => p + 6) := by
  refine ⟨by decide, by unfold dateShape; decide, by decide, by decide, by decide,
    by decide⟩

/-- C6, amended: for a purchase date of the shape `YYYY-MM-DD`, the day (its last two
digits read as a number) is odd exactly when the last character is one of `1 3 5 7 9`, and
the points are those of the same receipt dated `2022-01-02` plus 6 when the day is odd,
plus nothing otherwise, the sum being the addition of Go `int`, which wraps at 64 bits; it
is the sum of the integers whenever that sum is below `2^63`. -/
theorem C6_date_award (r : receipt) (y1 y2 y3 y4 m1 m2 d1 d2 : Nat)
    (hshape : dateShape r.PurchaseDate y1 y2 y3 y4 m1 m2 d1 d2) :
    (twoDigits d1 d2 % 2 = 1 ↔ d2 ∈ [49, 51, 53, 55, 57]) ∧
      calculatePoints r =
        (calculatePoints { r with PurchaseDate := str "2022-01-02" }).map
          (fun p => wrapInt (p + if twoDigits d1 d2 % 2 = 1 then 6 else 0)) ∧
      ∀ p, calculatePoints { r with PurchaseDate := str "2022-01-02" } = some p →
        p + (if twoDigits d1 d2 % 2 = 1 then 6 else 0) < 9223372036854775808 →
        calculatePoints r = some (p + if twoDigits d1 d2 % 2 = 1 then 6 else 0) := by
  obtain ⟨hdig, hD⟩ := hshape
  have h1 : isDigit d1 = true := hdig d1 (by simp)
  have h2 : isDigit d2 = true := hdig d2 (by simp)
  refine ⟨?_, ?_⟩
  · unfold twoDigits
    unfold isDigit at h1 h2
    simp only [Bool.and_eq_true, decide_eq_true_eq] at h1 h2
    simp only [List.mem_cons, List.mem_singleton, List.mem_nil_iff, or_false]
    omega
  · apply calculatePoints_shift
    · split <;> decide
    · unfold slicesOk
      have h10 : (str "2022-01-02").length = 10 := by decide
      simp only [hD, h10, List.length_cons, List.length_nil]
    · unfold rawPoints
      have h0 : dateAward ((str "2022-01-02").drop ((str "2022-01-02").length - 1)) = 0 := by
        decide
      simp only [hD, h0, List.length_cons, List.length_nil]
      simp only [Nat.reduceAdd, Nat.reduceSub, List.drop_succ_cons, List.drop_zero]
      rw [dateAward_last d1 d2 h1 h2]
      ring

/-- Witness of C6: the third test receipt, dated `2022-01-01`, scores 22 when dated
`2022-01-02` and 6 more as it is. -/
theorem C6_date_award_witness :
    dateShape testReceipt3.PurchaseDate 50 48 50 50 48 49 48 49 ∧
    calculatePoints { testReceipt3 with PurchaseDate := str "2022-01-02" } = some 22 ∧
    calculatePoints testReceipt3 = some (22 + if twoDigits 48 49 % 2 = 1 then 6 else 0) :=
  ⟨by unfold dateShape; decide, by decide,
   (C6_date_award testReceipt3 50 48 50 50 48 49 48 49 (by unfold dateShape; decide)).2.2 22
     (by decide) (by decide)⟩

/-! ## C7 -/

theorem timeAward_hour (h1 h2 : Nat) (hd1 : isDigit h1 = true) (hd2 : isDigit h2 = true) :
    timeAward [h1, h2] = if twoDigits h1 h2 = 14 ∨ twoDigits h1 h2 = 15 then 10 else 0 := by
  unfold timeAward twoDigits
  unfold isDigit at hd1 hd2
  simp only [Bool.and_eq_true, decide_eq_true_eq] at hd1 hd2
  simp only [str_14, str_15, List.cons.injEq, and_true]
  split_ifs <;> first | rfl | omega

/-- C7 as stated fails where the sum passes the largest `int`: the receipt
`timeOverflowReceipt`, which `structValidator` accepts and which was bought at `14:33`,
scores `2^63 - 3` at `00:00`, and as it is it scores `-2^63 + 7`, not 10 more. -/
theorem C7_counterexample :
    structValidator timeOverflowReceipt = none ∧
      timeShape timeOverflowReceipt.PurchaseTime 49 52 51 51 ∧
      twoDigits 49 52 = 14 ∧
      calculatePoints { timeOverflowReceipt with PurchaseTime := str "00:00" } =
        some 9223372036854775805 ∧
      calculatePoints timeOverflowReceipt = some (-9223372036854775801) ∧
      calculatePoints timeOverflowReceipt ≠
        (calculatePoints { timeOverflowReceipt with PurchaseTime := str "00:00" }).map
          (fun p => p + 10) := by
  refine ⟨by decide, by unfold timeShape; decide, by decide, by decide, by decide,
    by decide⟩

/-- C7, amended: for a purchase time of the shape `HH:MM`, the points are those of the same
receipt at `00:00` plus 10 when the hour `HH` is 14 or 15, whatever the minutes, plus
nothing otherwise, the sum being the addition of Go `int`, which wraps at 64 bits; it is
the sum of the integers whenever that sum is below `2^63`. -/
theorem C7_time_award (r : receipt) (h1 h2 m1 m2 : Nat)
    (hshape : timeShape r.PurchaseTime h1 h2 m1 m2) :
    calculatePoints r =
        (calculatePoints { r with PurchaseTime := str "00:00" }).map
          (fun p => wrapInt (p + if twoDigits h1 h2 = 14 ∨ twoDigits h1 h2 = 15 then 10 else 0)) ∧
      ∀ p, calculatePoints { r with PurchaseTime := str "00:00" } = some p →
        p + (if twoDigits h1 h2 = 14 ∨ twoDigits h1 h2 = 15 then 10 else 0) <
          9223372036854775808 →
        calculatePoints r =
          some (p + if twoDigits h1 h2 = 14 ∨ twoDigits h1 h2 = 15 then 10 else 0) := by
  obtain ⟨hdig, hT⟩ := hshape
  have hd1 : isDigit h1 = true := hdig h1 (by simp)
  have hd2 : isDigit h2 = true := hdig h2 (by simp)
  apply calculatePoints_shift
  · split <;> decide
  · unfold slicesOk
    have h5 : (str "00:00").length = 5 := by decide
    simp only [hT, h5, List.length_cons, List.length_nil]
  · unfold rawPoints
    have h0 : timeAward ((str "00:00").take 2) = 0 := by decide
    simp only [hT, h0, List.take_succ_cons, List.take_zero]
    rw [timeAward_hour h1 h2 hd1 hd2]
    ring

/-- Witness of C7: the fourth test receipt, bought at `14:33`, scores 99 at `00:00` and 10
more as it is. -/
theorem C7_time_award_witness :
    timeShape testReceipt4.PurchaseTime 49 52 51 51 ∧
    calculatePoints { testReceipt4 with PurchaseTime := str "00:00" } = some 99 ∧
    calculatePoints testReceipt4 =
      some (99 + if twoDigits 49 52 = 14 ∨ twoDigits 49 52 = 15 then 10 else 0) :=
  ⟨by unfold timeShape; decide, by decide,
   (C7_time_award testReceipt4 49 52 51 51 (by unfold timeShape; decide)).2 99
     (by decide) (by decide)⟩

/-! ## C5 -/

theorem rawPoints_items (r : receipt) (l : List item) :
    rawPoints { r with Items := l } =
      rawPoints { r with Items := [] } + 5 * ((l.length : Int) / 2) + (l.map itemAward).sum := by
  unfold rawPoints
  simp only [List.length_nil, List.map_nil, List.sum_nil]
  norm_num
  ring

theorem calculatePoints_items (r : receipt) (l : List item) (hs : slicesOk r) :
    calculatePoints { r with Items := l } = some (wrapInt (rawPoints { r with Items := l })) := by
  rw [calculatePoints_eq]
  exact if_pos hs

theorem pointsWith_eq (r : receipt) (l : List item) (hs : slicesOk r) :
    pointsWith r l = wrapInt (rawPoints { r with Items := l }) := by
  unfold pointsWith
  rw [calculatePoints_items r l hs]
  rfl

theorem sum_of_differences (l : List item) (x b : Int) :
    wrapInt (x + (l.map (fun i => wrapInt (b + itemAward i) - wrapInt b)).sum) =
      wrapInt (x + (l.map itemAward).sum) := by
  induction l generalizing x with
  | nil => rfl
  | cons i l ih =>
    simp only [List.map_cons, List.sum_cons]
    rw [← Int.add_assoc, ih]
    generalize (l.map itemAward).sum = t
    generalize itemAward i = a
    unfold wrapInt
    omega

/-- C5 as stated fails where the sum passes the largest `int`: on `overflowReceipt`, which
`structValidator` accepts, the receipt without items scores 31, each of the two items
alone adds `2^62` to it, so the right-hand side of the claim is `2^63 + 36`, and
`calculatePoints` returns `-2^63 + 36`. -/
theorem C5_counterexample :
    structValidator overflowReceipt = none ∧
      calculatePoints overflowReceipt = some (-9223372036854775772) ∧
      pointsWith overflowReceipt [] + 5 * ((overflowReceipt.Items.length : Int) / 2) +
        (overflowReceipt.Items.map
          (fun i => pointsWith overflowReceipt [i] - pointsWith overflowReceipt [])).sum =
        9223372036854775844 := by
  decide

/-- C5, amended: when `calculatePoints` is defined on `r`, it is defined with any other
list of items too, and the points of `r` are the points of `r` without items, plus 5 for
every complete pair of items, plus for every item what that item alone adds to the receipt
without items, the sum being the addition of Go `int`, which wraps at 64 bits; it is the
sum of the integers whenever that sum lies between `-2^63` and `2^63 - 1`. -/
theorem C5_pairs_and_items (r : receipt) (p : Int) (h : calculatePoints r = some p) :
    (∀ l, calculatePoints { r with Items := l } = some (pointsWith r l)) ∧
      p = wrapInt (pointsWith r [] + 5 * ((r.Items.length : Int) / 2) +
        (r.Items.map (fun i => pointsWith r [i] - pointsWith r [])).sum) ∧
      (-9223372036854775808 ≤ pointsWith r [] + 5 * ((r.Items.length : Int) / 2) +
          (r.Items.map (fun i => pointsWith r [i] - pointsWith r [])).sum →
        pointsWith r [] + 5 * ((r.Items.length : Int) / 2) +
          (r.Items.map (fun i => pointsWith r [i] - pointsWith r [])).sum <
            9223372036854775808 →
        p = pointsWith r [] + 5 * ((r.Items.length : Int) / 2) +
          (r.Items.map (fun i => pointsWith r [i] - pointsWith r [])).sum) := by
  have hs : slicesOk r := by
    by_contra hn
    rw [calculatePoints_eq, if_neg hn] at h
    exact Option.noConfusion h
  have hp : p = wrapInt (rawPoints r) := by
    rw [calculatePoints_eq, if_pos hs] at h
    exact (Option.some.inj h).symm
  have hmain : p = wrapInt (pointsWith r [] + 5 * ((r.Items.length : Int) / 2) +
      (r.Items.map (fun i => pointsWith r [i] - pointsWith r [])).sum) := by
    have hf : (fun i => pointsWith r [i] - pointsWith r []) =
        (fun i => wrapInt (rawPoints { r with Items := [] } + itemAward i) -
          wrapInt (rawPoints { r with Items := [] })) := by
      funext i
      rw [pointsWith_eq r [i] hs, pointsWith_eq r [] hs, rawPoints_items r [i]]
      simp
    rw [hf, sum_of_differences, pointsWith_eq r [] hs, hp,
      show rawPoints r = _ from rawPoints_items r r.Items]
    generalize (r.Items.map itemAward).sum = t
    generalize rawPoints { r with Items := [] } = b
    unfold wrapInt
    omega
  refine ⟨fun l => ?_, hmain, fun h1 h2 => ?_⟩
  · rw [pointsWith_eq r l hs]
    exact calculatePoints_items r l hs
  · rw [hmain]
    exact wrapInt_of_range h1 h2

/-- Witness of C5: the third test receipt, five items, 28 points. -/
theorem C5_pairs_and_items_witness :
    calculatePoints testReceipt3 = some 28 ∧
      (28 : Int) = pointsWith testReceipt3 [] +
        5 * ((testReceipt3.Items.length : Int) / 2) +
        (testReceipt3.Items.map
          (fun i => pointsWith testReceipt3 [i] - pointsWith testReceipt3 [])).sum :=
  ⟨by decide, (C5_pairs_and_items testReceipt3 28 (by decide)).2.2 (by decide) (by decide)⟩

/-! ## Matching -/

theorem mem_plusRests (c : Nat → Bool) (s t : GoString) :
    t ∈ plusRests c s ↔ ∃ pre, pre ≠ [] ∧ (∀ b ∈ pre, c b = true) ∧ s = pre ++ t := by
  induction s with
  | nil =>
    simp only [plusRests, List.not_mem_nil, false_iff]
    rintro ⟨pre, hne, -, h⟩
    cases pre with
    | nil => exact hne rfl
    | cons a pre => simp at h
  | cons b s ih =>
    unfold plusRests
    by_cases hb : c b = true
    · rw [if_pos hb, List.mem_cons, ih]
      constructor
      · rintro (h | ⟨pre, -, hall, h⟩)
        · exact ⟨[b], by simp, by simpa using hb, by simp [h]⟩
        · refine ⟨b :: pre, by simp, ?_, by simp [h]⟩
          intro x hx
          rcases List.mem_cons.mp hx with h1 | h1
          · rw [h1]; exact hb
          · exact hall x h1
      · rintro ⟨pre, hne, hall, h⟩
        cases pre with
        | nil => exact absurd rfl hne
        | cons a pre =>
          simp only [List.cons_append, List.cons.injEq] at h
          obtain ⟨-, h2⟩ := h
          cases pre with
          | nil => left; simpa using h2.symm
          | cons a2 pre =>
            right
            refine ⟨a2 :: pre, by simp, ?_, h2⟩
            intro x hx
            exact hall x (List.mem_cons_of_mem _ hx)
    · rw [if_neg hb]
      simp only [List.not_mem_nil, false_iff]
      rintro ⟨pre, hne, hall, h⟩
      cases pre with
      | nil => exact hne rfl
      | cons a pre =>
        simp only [List.cons_append, List.cons.injEq] at h
        exact hb (h.1 ▸ hall a (by simp))

theorem repRest_eq_some (c : Nat → Bool) (n : Nat) (s t : GoString) :
    repRest c n s = some t ↔
      ∃ pre, pre.length = n ∧ (∀ b ∈ pre, c b = true) ∧ s = pre ++ t := by
  induction n generalizing s with
  | zero =>
    simp only [repRest, Option.some.injEq, List.length_eq_zero]
    constructor
    · intro h; exact ⟨[], rfl, by simp, by simp [h]⟩
    · rintro ⟨pre, rfl, -, h⟩; simpa using h
  | succ n ih =>
    cases s with
    | nil =>
      simp only [repRest, false_iff, reduceCtorEq]
      rintro ⟨pre, hlen, -, h⟩
      cases pre with
      | nil => simp at hlen
      | cons a pre => simp at h
    | cons b s =>
      unfold repRest
      by_cases hb : c b = true
      · rw [if_pos hb, ih]
        constructor
        · rintro ⟨pre, hlen, hall, h⟩
          refine ⟨b :: pre, by simp [hlen], ?_, by simp [h]⟩
          intro x hx
          rcases List.mem_cons.mp hx with h1 | h1
          · rw [h1]; exact hb
          · exact hall x h1
        · rintro ⟨pre, hlen, hall, h⟩
          cases pre with
          | nil => simp at hlen
          | cons a pre =>
            simp only [List.cons_append, List.cons.injEq] at h
            refine ⟨pre, by simpa using hlen, ?_, h.2⟩
            intro x hx
            exact hall x (List.mem_cons_of_mem _ hx)
      · rw [if_neg hb]
        simp only [false_iff, reduceCtorEq]
        rintro ⟨pre, hlen, hall, h⟩
        cases pre with
        | nil => simp at hlen
        | cons a pre =>
          simp only [List.cons_append, List.cons.injEq] at h
          exact hb (h.1 ▸ hall a (by simp))

theorem mem_foldr_append {α β : Type} (f : α → List β) (l : List α) (t : β) :
    t ∈ l.foldr (fun u acc => f u ++ acc) [] ↔ ∃ u ∈ l, t ∈ f u := by
  induction l with
  | nil => simp
  | cons a l ih => simp [List.foldr_cons, List.mem_append, ih]

theorem mem_consume_nil (s t : GoString) : t ∈ consume [] s ↔ t = s := by
  simp [consume]

theorem mem_consume_rep (c : Nat → Bool) (n : Nat) (ps : List Piece) (s t : GoString) :
    t ∈ consume (.rep c n :: ps) s ↔ ∃ u, repRest c n s = some u ∧ t ∈ consume ps u := by
  rw [consume]
  cases h : repRest c n s with
  | none => simp
  | some u => simp

theorem mem_consume_plus (c : Nat → Bool) (ps : List Piece) (s t : GoString) :
    t ∈ consume (.plus c :: ps) s ↔ ∃ u ∈ plusRests c s, t ∈ consume ps u := by
  rw [consume]
  exact mem_foldr_append _ _ _

theorem matchAt_iff (re : Regex) (s : GoString) :
    matchAt re s = true ↔ ∃ t ∈ consume re.body s, re.eol = true → t = [] := by
  unfold matchAt
  rw [List.any_eq_true]
  constructor
  · rintro ⟨t, ht, h⟩
    refine ⟨t, ht, fun he => ?_⟩
    simpa [he, List.isEmpty_iff] using h
  · rintro ⟨t, ht, h⟩
    refine ⟨t, ht, ?_⟩
    cases he : re.eol with
    | false => simp
    | true => simp [h he]

theorem searchFrom_iff (re : Regex) (s : GoString) :
    searchFrom re s = true ↔ ∃ pre suf, s = pre ++ suf ∧ matchAt re suf = true := by
  induction s with
  | nil =>
    simp only [searchFrom]
    constructor
    · intro h; exact ⟨[], [], rfl, h⟩
    · rintro ⟨pre, suf, h, hm⟩
      have h2 : suf = [] := (List.append_eq_nil.mp h.symm).2
      rw [h2] at hm; exact hm
  | cons b s ih =>
    simp only [searchFrom, Bool.or_eq_true, ih]
    constructor
    · rintro (h | ⟨pre, suf, h, hm⟩)
      · exact ⟨[], b :: s, rfl, h⟩
      · exact ⟨b :: pre, suf, by simp [h], hm⟩
    · rintro ⟨pre, suf, h, hm⟩
      cases pre with
      | nil => left; simp only [List.nil_append] at h; rw [h]; exact hm
      | cons a pre =>
        right
        simp only [List.cons_append, List.cons.injEq] at h
        exact ⟨pre, suf, h.2, hm⟩

/-- A pattern `^[class]+$` accepts exactly the non-empty strings over the class. -/
theorem anchoredPlus_iff (c : Nat → Bool) (s : GoString) :
    regexpMatch ⟨true, [.plus c], true⟩ s = true ↔ s ≠ [] ∧ ∀ b ∈ s, c b = true := by
  unfold regexpMatch
  simp only [if_true, matchAt_iff, mem_consume_plus, mem_consume_nil, mem_plusRests]
  constructor
  · rintro ⟨t, ⟨u, ⟨pre, hne, hall, hs⟩, htu⟩, ht⟩
    have h1 : t = [] := ht trivial
    subst htu
    subst h1
    rw [List.append_nil] at hs
    subst hs
    exact ⟨hne, hall⟩
  · rintro ⟨hne, hall⟩
    exact ⟨[], ⟨[], ⟨s, hne, hall, by simp⟩, rfl⟩, fun _ => rfl⟩

theorem reRetailer_iff (s : GoString) :
    regexpMatch reRetailer s = true ↔ validRetailer s :=
  anchoredPlus_iff _ s

theorem reShortDescription_iff (s : GoString) :
    regexpMatch reShortDescription s = true ↔ validDescription s :=
  anchoredPlus_iff _ s

theorem rePrice_iff (s : GoString) :
    regexpMatch rePrice s = true ↔ validDecimal s := by
  unfold regexpMatch rePrice lit validDecimal decimalShape
  simp only [if_true, matchAt_iff, mem_consume_plus, mem_consume_rep, mem_consume_nil,
    mem_plusRests, repRest_eq_some]
  constructor
  · rintro ⟨t, ⟨u, ⟨ds, hne, hall, hs⟩, v, ⟨p1, hl1, ha1, hu⟩, w, ⟨p2, hl2, ha2, hv⟩, htw⟩, ht⟩
    have h1 : t = [] := ht trivial
    subst htw
    subst h1
    match p1, hl1 with
    | [a], _ =>
      match p2, hl2 with
      | [d1, d2], _ =>
        have ha : a = 46 := by simpa using ha1 a (by simp)
        refine ⟨ds, d1, d2, hne, hall, ha2 d1 (by simp), ha2 d2 (by simp), ?_⟩
        rw [hs, hu, hv, ha]
        simp
  · rintro ⟨ds, d1, d2, hne, hall, h1, h2, hs⟩
    refine ⟨[], ⟨[46, d1, d2], ⟨ds, hne, hall, hs⟩, [d1, d2], ⟨[46], rfl, by simp, rfl⟩,
      [], ⟨[d1, d2], rfl, ?_, by simp⟩, rfl⟩, fun _ => rfl⟩
    intro b hb
    rcases List.mem_cons.mp hb with h | h
    · rw [h]; exact h1
    · rw [List.mem_singleton.mp h]; exact h2

theorem length_one {l : GoString} (h : l.length = 1) : ∃ a, l = [a] := by
  match l, h with
  | [a], _ => exact ⟨a, rfl⟩

theorem length_two {l : GoString} (h : l.length = 2) : ∃ a b, l = [a, b] := by
  match l, h with
  | [a, b], _ => exact ⟨a, b, rfl⟩

theorem length_four {l : GoString} (h : l.length = 4) : ∃ a b c d, l = [a, b, c, d] := by
  match l, h with
  | [a, b, c, d], _ => exact ⟨a, b, c, d, rfl⟩

/-- The pattern of `purchaseDate` accepts exactly the strings that hold, anywhere, four
digits, `-`, two digits, `-`, two digits. -/
theorem rePurchaseDate_iff (s : GoString) :
    regexpMatch rePurchaseDate s = true ↔
      ∃ pre post y1 y2 y3 y4 m1 m2 d1 d2,
        (∀ b ∈ [y1, y2, y3, y4, m1, m2, d1, d2], isDigit b = true) ∧
        s = pre ++ [y1, y2, y3, y4, 45, m1, m2, 45, d1, d2] ++ post := by
  unfold regexpMatch rePurchaseDate lit
  simp only [Bool.false_eq_true, if_false, searchFrom_iff, matchAt_iff, mem_consume_rep,
    mem_consume_nil, repRest_eq_some]
  constructor
  · rintro ⟨pre, suf, hs, t, ⟨u1, ⟨p1, hl1, ha1, h1⟩, u2, ⟨p2, hl2, ha2, h2⟩,
      u3, ⟨p3, hl3, ha3, h3⟩, u4, ⟨p4, hl4, ha4, h4⟩, u5, ⟨p5, hl5, ha5, h5⟩, ht⟩, -⟩
    obtain ⟨y1, y2, y3, y4, rfl⟩ := length_four hl1
    obtain ⟨a, rfl⟩ := length_one hl2
    obtain ⟨m1, m2, rfl⟩ := length_two hl3
    obtain ⟨a2, rfl⟩ := length_one hl4
    obtain ⟨d1, d2, rfl⟩ := length_two hl5
    have e1 : a = 45 := by simpa using ha2 a (by simp)
    have e2 : a2 = 45 := by simpa using ha4 a2 (by simp)
    refine ⟨pre, t, y1, y2, y3, y4, m1, m2, d1, d2, ?_, ?_⟩
    · intro b hb
      simp only [List.mem_cons, List.mem_singleton, List.mem_nil_iff, or_false] at hb
      rcases hb with h | h | h | h | h | h | h | h <;> subst h
      · exact ha1 _ (by simp)
      · exact ha1 _ (by simp)
      · exact ha1 _ (by simp)
      · exact ha1 _ (by simp)
      · exact ha3 _ (by simp)
      · exact ha3 _ (by simp)
      · exact ha5 _ (by simp)
      · exact ha5 _ (by simp)
    · rw [hs, h1, h2, h3, h4, h5, ht, e1, e2]
      simp
  · rintro ⟨pre, post, y1, y2, y3, y4, m1, m2, d1, d2, hdig, hs⟩
    refine ⟨pre, [y1, y2, y3, y4, 45, m1, m2, 45, d1, d2] ++ post, by simp [hs], post,
      ⟨[45, m1, m2, 45, d1, d2] ++ post, ⟨[y1, y2, y3, y4], rfl, ?_, by simp⟩,
       [m1, m2, 45, d1, d2] ++ post, ⟨[45], rfl, by simp, by simp⟩,
       [45, d1, d2] ++ post, ⟨[m1, m2], rfl, ?_, by simp⟩,
       [d1, d2] ++ post, ⟨[45], rfl, by simp, by simp⟩,
       post, ⟨[d1, d2], rfl, ?_, by simp⟩, rfl⟩, by simp⟩
    · intro b hb; exact hdig b (by simp at hb ⊢; tauto)
    · intro b hb; exact hdig b (by simp at hb ⊢; tauto)
    · intro b hb; exact hdig b (by simp at hb ⊢; tauto)

/-- The pattern of `purchaseTime` accepts exactly the strings that hold, anywhere, two
digits, `:`, two digits. -/
theorem rePurchaseTime_iff (s : GoString) :
    regexpMatch rePurchaseTime s = true ↔
      ∃ pre post h1 h2 m1 m2,
        (∀ b ∈ [h1, h2, m1, m2], isDigit b = true) ∧
        s = pre ++ [h1, h2, 58, m1, m2] ++ post := by
  unfold regexpMatch rePurchaseTime lit
  simp only [Bool.false_eq_true, if_false, searchFrom_iff, matchAt_iff, mem_consume_rep,
    mem_consume_nil, repRest_eq_some]
  constructor
  · rintro ⟨pre, suf, hs, t, ⟨u1, ⟨p1, hl1, ha1, e1⟩, u2, ⟨p2, hl2, ha2, e2⟩,
      u3, ⟨p3, hl3, ha3, e3⟩, ht⟩, -⟩
    obtain ⟨h1, h2, rfl⟩ := length_two hl1
    obtain ⟨a, rfl⟩ := length_one hl2
    obtain ⟨m1, m2, rfl⟩ := length_two hl3
    have ea : a = 58 := by simpa using ha2 a (by simp)
    refine ⟨pre, t, h1, h2, m1, m2, ?_, ?_⟩
    · intro b hb
      simp only [List.mem_cons, List.mem_singleton, List.mem_nil_iff, or_false] at hb
      rcases hb with h | h | h | h <;> subst h
      · exact ha1 _ (by simp)
      · exact ha1 _ (by simp)
      · exact ha3 _ (by simp)
      · exact ha3 _ (by simp)
    · rw [hs, e1, e2, e3, ht, ea]
      simp
  · rintro ⟨pre, post, h1, h2, m1, m2, hdig, hs⟩
    refine ⟨pre, [h1, h2, 58, m1, m2] ++ post, by simp [hs], post,
      ⟨[58, m1, m2] ++ post, ⟨[h1, h2], rfl, ?_, by simp⟩,
       [m1, m2] ++ post, ⟨[58], rfl, by simp, by simp⟩,
       post, ⟨[m1, m2], rfl, ?_, by simp⟩, rfl⟩, by simp⟩
    · intro b hb; exact hdig b (by simp at hb ⊢; tauto)
    · intro b hb; exact hdig b (by simp at hb ⊢; tauto)

/-! ## structValidator -/

theorem structValidatorItem_eq (i : item) :
    structValidatorItem i =
      if regexpMatch rePrice i.Price = true ∧
          regexpMatch reShortDescription i.ShortDescription = true then none
      else some "invalid schema" := by
  unfold structValidatorItem itemFields
  simp only [List.reverse_cons, List.reverse_nil, List.nil_append, List.cons_append,
    validateFields]
  by_cases h1 : regexpMatch rePrice i.Price = true
  · by_cases h2 : regexpMatch reShortDescription i.ShortDescription = true
    · simp [h1, h2]
    · simp [h1, h2]
  · simp [h1]

theorem validateElems_eq (l : List item) :
    validateElems structValidatorItem l =
      if ∀ i ∈ l, structValidatorItem i = none then none else some "invalid schema" := by
  induction l with
  | nil => simp [validateElems]
  | cons i l ih =>
    unfold validateElems
    rcases hi : structValidatorItem i with _ | e
    · simp only [ih, List.forall_mem_cons, hi, true_and]
    · have he : e = "invalid schema" := by
        rw [structValidatorItem_eq] at hi
        split at hi
        · exact Option.noConfusion hi
        · exact (Option.some.inj hi).symm
      simp [hi, he]

theorem structValidator_eq (r : receipt) :
    structValidator r = if accepts r then none else some "invalid schema" := by
  unfold structValidator receiptFields accepts
  simp only [List.reverse_cons, List.reverse_nil, List.nil_append, List.cons_append,
    validateFields, validateElems_eq]
  split_ifs <;> simp_all

theorem accepts_of_none {r : receipt} (h : structValidator r = none) : accepts r := by
  by_contra hn
  rw [structValidator_eq, if_neg hn] at h
  exact Option.noConfusion h

theorem structValidatorItem_none {i : item} (h : structValidatorItem i = none) :
    validDecimal i.Price ∧ validDescription i.ShortDescription := by
  rw [structValidatorItem_eq] at h
  split at h
  · rename_i hc
    exact ⟨(rePrice_iff _).mp hc.1, (reShortDescription_iff _).mp hc.2⟩
  · exact Option.noConfusion h

/-! ## C2 -/

/-- C2, on the code: the patterns of `purchaseDate` and `purchaseTime` carry no `^` and no
`$`, unlike the four other patterns, so `regexp.Match` is content with a match somewhere in
the value. The second test receipt with the date `2022-01-023` (11 characters) and the time
`x13:13y` (7 characters) is accepted by `structValidator`. -/
theorem C2_date_and_time_match_inside :
    structValidator
        { testReceipt2 with PurchaseDate := str "2022-01-023", PurchaseTime := str "x13:13y" } =
      none ∧
    (str "2022-01-023").length = 11 ∧ (str "x13:13y").length = 7 := by
  decide

/-! ## C8 -/

/-- C8: whatever the other fields, `structValidator` returns the error `invalid schema` for
a receipt whose retailer is empty or holds a character other than a word character,
whitespace, `-` or `&`, and for a receipt whose total is not one or more digits, a dot and
exactly two digits. -/
theorem C8_rejects_retailer_or_total (r : receipt)
    (h : ¬ validRetailer r.Retailer ∨ ¬ validDecimal r.Total) :
    structValidator r = some "invalid schema" := by
  rw [structValidator_eq]
  apply if_neg
  intro hacc
  rcases h with h | h
  · exact h ((reRetailer_iff _).mp hacc.2.2.2.2.2)
  · exact h ((rePrice_iff _).mp hacc.1)

/-- Witness of C8: the first test receipt with the retailer `a.b`. -/
theorem C8_rejects_retailer_or_total_witness :
    (¬ validRetailer (str "a.b") ∨ ¬ validDecimal testReceipt1.Total) ∧
      structValidator { testReceipt1 with Retailer := str "a.b" } = some "invalid schema" :=
  ⟨Or.inl (by unfold validRetailer; decide),
   C8_rejects_retailer_or_total { testReceipt1 with Retailer := str "a.b" }
     (Or.inl (by unfold validRetailer; decide))⟩

/-! ## C9 -/

/-- C9: `structValidator` returns the error `invalid schema` whenever some item of the
receipt, at any position, has a price that is not one or more digits, a dot and exactly two
digits, or a description that is empty or holds a character other than a word character,
whitespace or `-`, whatever the other fields and items; the price `1.5` is such a price. -/
theorem C9_rejects_any_bad_item (r : receipt) (i : item) (hi : i ∈ r.Items)
    (h : ¬ validDecimal i.Price ∨ ¬ validDescription i.ShortDescription) :
    structValidator r = some "invalid schema" ∧ ¬ validDecimal (str "1.5") := by
  constructor
  · rw [structValidator_eq]
    apply if_neg
    intro hacc
    have h2 := structValidatorItem_none (hacc.2.2.1 i hi)
    rcases h with h | h
    · exact h h2.1
    · exact h h2.2
  · intro hv
    exact absurd ((rePrice_iff _).mpr hv) (by decide)

/-- Witness of C9: the third test receipt with a sixth item priced `1.5`. -/
theorem C9_rejects_any_bad_item_witness :
    mkItem "Dasani" "1.5" ∈ testReceipt3.Items ++ [mkItem "Dasani" "1.5"] ∧
      structValidator
          { testReceipt3 with Items := testReceipt3.Items ++ [mkItem "Dasani" "1.5"] } =
        some "invalid schema" :=
  ⟨by simp,
   (C9_rejects_any_bad_item
      { testReceipt3 with Items := testReceipt3.Items ++ [mkItem "Dasani" "1.5"] }
      (mkItem "Dasani" "1.5") (by simp)
      (Or.inl (fun hv => absurd ((rePrice_iff _).mpr hv) (by decide)))).1⟩

/-! ## C10 -/

/-- C10: for a receipt without items, whatever its other fields, `structValidator` returns
an error, and `processReceipt`, given a request whose body decodes to it, sends no statement
to the store, leaves the store as it was and returns no identifier; for a POST request the
answer is the status 400 with the message `The receipt is invalid`. -/
theorem C10_no_items_no_write (env : Env) (db : DB) (req : Request) (r : receipt)
    (hbody : req.body = .ok r) (hitems : r.Items = []) :
    structValidator r = some "invalid schema" ∧
      (processReceipt env db req).issued = [] ∧
      (processReceipt env db req).db = db ∧
      (∀ id, (processReceipt env db req).response ≠ .processed id) ∧
      (req.method = "POST" →
        (processReceipt env db req).response = .error 400 "The receipt is invalid") := by
  have hrej : ∀ x : receipt, x.Items = [] → structValidator x = some "invalid schema" := by
    intro x hx
    rw [structValidator_eq]
    apply if_neg
    intro hacc
    have := hacc.2.1
    rw [hx] at this
    simp at this
  have hv : structValidator { r with ID := env.uuids 0 } = some "invalid schema" :=
    hrej _ hitems
  refine ⟨hrej r hitems, ?_⟩
  unfold processReceipt
  by_cases hm : req.method = "POST"
  · simp [hm, hbody, hv]
  · simp [hm]

/-- Witness of C10: the first test receipt without its items, posted to an empty store. -/
theorem C10_no_items_no_write_witness :
    ({ testReceipt1 with Items := [] } : receipt).Items = [] ∧
      (processReceipt ⟨fun _ => [], false, fun _ => none, false, fun _ _ _ => .error "syntax error"⟩ ⟨[], []⟩
        ⟨"POST", .ok { testReceipt1 with Items := [] }⟩).response =
        .error 400 "The receipt is invalid" :=
  ⟨rfl,
   (C10_no_items_no_write ⟨fun _ => [], false, fun _ => none, false, fun _ _ _ => .error "syntax error"⟩ ⟨[], []⟩
      ⟨"POST", .ok { testReceipt1 with Items := [] }⟩ { testReceipt1 with Items := [] }
      rfl rfl).2.2.2.2 rfl⟩

/-! ## Rounding to float64 -/

theorem log2Fuel_spec (fuel n : Nat) (h : n ≤ fuel) :
    n < 2 ^ (log2Fuel fuel n + 1) ∧ (0 < n → 2 ^ log2Fuel fuel n ≤ n) := by
  induction fuel generalizing n with
  | zero =>
    have h0 : n = 0 := by omega
    subst h0
    simp [log2Fuel]
  | succ fuel ih =>
    unfold log2Fuel
    by_cases h2 : n < 2
    · rw [if_pos h2]
      constructor
      · simpa using h2
      · intro hpos; simpa using hpos
    · rw [if_neg h2]
      obtain ⟨ih1, ih2⟩ := ih (n / 2) (by omega)
      have ih3 := ih2 (by omega)
      constructor
      · rw [Nat.pow_succ]
        omega
      · intro _
        rw [Nat.pow_succ]
        omega

theorem lt_pow_log2 (n : Nat) : n < 2 ^ (log2 n + 1) :=
  (log2Fuel_spec n n (Nat.le_refl n)).1

theorem pow_log2_le (n : Nat) (hn : 0 < n) : 2 ^ log2 n ≤ n :=
  (log2Fuel_spec n n (Nat.le_refl n)).2 hn

theorem log2_le_of_lt_pow {n a : Nat} (hn : 0 < n) (h : n < 2 ^ (a + 1)) : log2 n ≤ a := by
  have h1 := pow_log2_le n hn
  have h2 : 2 ^ log2 n < 2 ^ (a + 1) := Nat.lt_of_le_of_lt h1 h
  have h3 := (Nat.pow_lt_pow_iff_right (by decide : 1 < 2)).mp h2
  omega

theorem le_log2_of_pow_le {d b : Nat} (h : 2 ^ b ≤ d) : b ≤ log2 d := by
  have h1 := lt_pow_log2 d
  have h2 : 2 ^ b < 2 ^ (log2 d + 1) := Nat.lt_of_le_of_lt h h1
  have h3 := (Nat.pow_lt_pow_iff_right (by decide : 1 < 2)).mp h2
  omega

theorem roundHalfEven_bounds (n d : Nat) (hd : 0 < d) :
    2 * (roundHalfEven n d * d) ≤ 2 * n + d ∧ 2 * n ≤ 2 * (roundHalfEven n d * d) + d := by
  have hdm := Nat.div_add_mod n d
  have hr := Nat.mod_lt n hd
  have hq : d * (n / d) = n / d * d := Nat.mul_comm _ _
  have h1 : (n / d + 1) * d = n / d * d + d := Nat.succ_mul _ _
  unfold roundHalfEven
  simp only
  split
  · omega
  · split
    · omega
    · rcases Nat.mod_two_eq_zero_or_one (n / d) with h | h
      · rw [h, Nat.add_zero]; omega
      · rw [h, h1]; omega

theorem roundHalfEven_unique (n d j : Nat) (hd : 0 < d)
    (h1 : 2 * (j * d) < 2 * n + d) (h2 : 2 * n < 2 * (j * d) + d) :
    roundHalfEven n d = j := by
  have hdm := Nat.div_add_mod n d
  have hr := Nat.mod_lt n hd
  have hq : d * (n / d) = n / d * d := Nat.mul_comm _ _
  have hcase : n / d = j ∨ n / d + 1 = j := by
    rcases Nat.lt_trichotomy (n / d) j with h | h | h
    · right
      by_contra hne
      have h3 : n / d + 2 ≤ j := by omega
      have h4 : (n / d + 2) * d ≤ j * d := Nat.mul_le_mul_right d h3
      have h5 : (n / d + 2) * d = n / d * d + 2 * d := by ring
      omega
    · left; exact h
    · exfalso
      have h3 : j + 1 ≤ n / d := h
      have h4 : (j + 1) * d ≤ n / d * d := Nat.mul_le_mul_right d h3
      have h5 : (j + 1) * d = j * d + d := Nat.succ_mul _ _
      omega
  unfold roundHalfEven
  simp only
  rcases hcase with h | h
  · have h3 : 2 * (n % d) < d := by rw [← h] at h2; omega
    rw [if_pos h3]; exact h
  · have h5 : j * d = n / d * d + d := by rw [← h]; exact Nat.succ_mul _ _
    have h3 : d < 2 * (n % d) := by omega
    have h4 : ¬ 2 * (n % d) < d := by omega
    rw [if_neg h4, if_pos h3]; exact h

theorem scaleNum_neg (n j : Nat) (hj : 0 < j) : scaleNum n (-(j : Int)) = n * 2 ^ j := by
  unfold scaleNum
  rw [if_pos (by omega)]
  simp

theorem scaleDen_neg (d j : Nat) (hj : 0 < j) : scaleDen d (-(j : Int)) = d := by
  unfold scaleDen
  rw [if_pos (by omega)]

theorem scaleNum_nonneg (n j : Nat) : scaleNum n (j : Int) = n := by
  unfold scaleNum
  rw [if_neg (by omega)]

theorem scaleDen_nonneg (d j : Nat) : scaleDen d (j : Int) = d * 2 ^ j := by
  unfold scaleDen
  rw [if_neg (by omega)]
  simp

/-- Rounding a positive rational `n / d` whose binary64 exponent is negative: the result is
finite, `m * 2^(-j)` with `m` the integer nearest to `n * 2^j / d`, and `n / d` lies below
`2^53 * 2^(-j)`. -/
theorem roundFloat64_neg (n d B : Nat) (hn : 0 < n) (hd : 0 < d) (hB1 : 1 ≤ B)
    (hB2 : B ≤ 1074) (hB : log2 n + B ≤ log2 d + 52) :
    ∃ j : Nat, B ≤ j ∧
      roundFloat64 n d = .finite (roundHalfEven (n * 2 ^ j) d) (-(j : Int)) ∧
      n * 2 ^ j < 2 ^ 53 * d := by
  have ha := lt_pow_log2 n
  have hb := pow_log2_le d hd
  obtain ⟨j0, hj0⟩ : ∃ j0, j0 = log2 d + 52 - log2 n := ⟨_, rfl⟩
  have he0 : (log2 n : Int) - (log2 d : Int) - 52 = -(j0 : Int) := by omega
  have hj0pos : 0 < j0 := by omega
  have hbase : n * 2 ^ j0 < 2 ^ 53 * d := by
    have h1 : n * 2 ^ j0 < 2 ^ (log2 n + 1) * 2 ^ j0 :=
      Nat.mul_lt_mul_of_pos_right ha (Nat.pow_pos (by decide))
    have h2 : 2 ^ (log2 n + 1) * 2 ^ j0 = 2 ^ 53 * 2 ^ log2 d := by
      rw [← Nat.pow_add, ← Nat.pow_add]
      congr 1
      omega
    have h3 : 2 ^ 53 * 2 ^ log2 d ≤ 2 ^ 53 * d := Nat.mul_le_mul_left _ hb
    omega
  obtain ⟨j1, hj1, hj1B, hg1⟩ : ∃ j1 : Nat,
      (if scaleNum n (-(j0 : Int)) < scaleDen d (-(j0 : Int)) * 2 ^ 52 then -(j0 : Int) - 1
        else -(j0 : Int)) = -(j1 : Int) ∧ B ≤ j1 ∧ n * 2 ^ j1 < 2 ^ 53 * d := by
    rw [scaleNum_neg n j0 hj0pos, scaleDen_neg d j0 hj0pos]
    by_cases hc : n * 2 ^ j0 < d * 2 ^ 52
    · refine ⟨j0 + 1, ?_, by omega, ?_⟩
      · rw [if_pos hc]; push_cast; ring
      · rw [Nat.pow_succ]
        have h53 : (2 : Nat) ^ 53 = 2 ^ 52 * 2 := by norm_num
        rw [h53]
        have : n * (2 ^ j0 * 2) = n * 2 ^ j0 * 2 := by ring
        have : 2 ^ 52 * 2 * d = d * 2 ^ 52 * 2 := by ring
        omega
    · exact ⟨j0, by rw [if_neg hc], by omega, hbase⟩
  have hj1pos : 0 < j1 := by omega
  have hgrid : gridExp n d = -((min j1 1074 : Nat) : Int) := by
    unfold gridExp
    simp only
    rw [he0, hj1]
    omega
  have hjpos : 0 < min j1 1074 := by omega
  refine ⟨min j1 1074, by omega, ?_, ?_⟩
  · unfold roundFloat64
    rw [if_neg (by omega)]
    simp only
    rw [hgrid, scaleNum_neg n _ hjpos, scaleDen_neg d _ hjpos]
    rw [if_neg (by omega)]
  · have h1 : 2 ^ (min j1 1074) ≤ 2 ^ j1 :=
      Nat.pow_le_pow_right (by decide) (Nat.min_le_left _ _)
    have h2 : n * 2 ^ (min j1 1074) ≤ n * 2 ^ j1 := Nat.mul_le_mul_left _ h1
    omega

/-- The two roundings of `price * 0.2` stay within the unit interval that holds the exact
value `c / 500`, when `c` is not a multiple of 500: `m1 / P1` is the rounded price and
`m3 / P3` the rounded product. -/
theorem product_window (c K m1 m3 P1 P3 : Nat) (hP1 : 512 ≤ P1) (hP3 : 4096 ≤ P3)
    (hc : c < 10 ^ 15) (hK1 : c + 1 ≤ 500 * K) (hK2 : 500 * K + 1 ≤ c + 500)
    (A1 : 2 * (m1 * 100) ≤ 2 * (c * P1) + 100)
    (A2 : 2 * (c * P1) ≤ 2 * (m1 * 100) + 100)
    (B1 : 2 * (m3 * (2 ^ 55 * P1)) ≤ 2 * (m1 * 7205759403792794 * P3) + 2 ^ 55 * P1)
    (B2 : 2 * (m1 * 7205759403792794 * P3) ≤ 2 * (m3 * (2 ^ 55 * P1)) + 2 ^ 55 * P1) :
    (K - 1) * P3 < m3 ∧ m3 ≤ K * P3 := by
  have hK : K ≤ 2 * 10 ^ 12 := by omega
  have hK0 : 1 ≤ K := by omega
  have A1p : 200 * (m1 * P3) ≤ 2 * (c * (P1 * P3)) + 100 * P3 := by
    calc 200 * (m1 * P3) = 2 * (m1 * 100) * P3 := by ring
      _ ≤ (2 * (c * P1) + 100) * P3 := Nat.mul_le_mul_right P3 A1
      _ = 2 * (c * (P1 * P3)) + 100 * P3 := by ring
  have A2p : 2 * (c * (P1 * P3)) ≤ 200 * (m1 * P3) + 100 * P3 := by
    calc 2 * (c * (P1 * P3)) = 2 * (c * P1) * P3 := by ring
      _ ≤ (2 * (m1 * 100) + 100) * P3 := Nat.mul_le_mul_right P3 A2
      _ = 200 * (m1 * P3) + 100 * P3 := by ring
  have B1p : 2 ^ 56 * (m3 * P1) ≤ 2 * 7205759403792794 * (m1 * P3) + 2 ^ 55 * P1 := by
    calc 2 ^ 56 * (m3 * P1) = 2 * (m3 * (2 ^ 55 * P1)) := by ring
      _ ≤ 2 * (m1 * 7205759403792794 * P3) + 2 ^ 55 * P1 := B1
      _ = 2 * 7205759403792794 * (m1 * P3) + 2 ^ 55 * P1 := by ring
  have B2p : 2 * 7205759403792794 * (m1 * P3) ≤ 2 ^ 56 * (m3 * P1) + 2 ^ 55 * P1 := by
    calc 2 * 7205759403792794 * (m1 * P3) = 2 * (m1 * 7205759403792794 * P3) := by ring
      _ ≤ 2 * (m3 * (2 ^ 55 * P1)) + 2 ^ 55 * P1 := B2
      _ = 2 ^ 56 * (m3 * P1) + 2 ^ 55 * P1 := by ring
  have hV1 : 512 * P3 ≤ P1 * P3 := Nat.mul_le_mul_right P3 hP1
  have hV2 : 4096 * P1 ≤ P1 * P3 := by
    calc 4096 * P1 = P1 * 4096 := Nat.mul_comm _ _
      _ ≤ P1 * P3 := Nat.mul_le_mul_left P1 hP3
  have hC1 : c * (P1 * P3) + P1 * P3 ≤ 500 * (K * (P1 * P3)) := by
    calc c * (P1 * P3) + P1 * P3 = (c + 1) * (P1 * P3) := by ring
      _ ≤ 500 * K * (P1 * P3) := Nat.mul_le_mul_right _ hK1
      _ = 500 * (K * (P1 * P3)) := by ring
  have hC2 : 500 * (K * (P1 * P3)) + P1 * P3 ≤ c * (P1 * P3) + 500 * (P1 * P3) := by
    calc 500 * (K * (P1 * P3)) + P1 * P3 = (500 * K + 1) * (P1 * P3) := by ring
      _ ≤ (c + 500) * (P1 * P3) := Nat.mul_le_mul_right _ hK2
      _ = c * (P1 * P3) + 500 * (P1 * P3) := by ring
  have hKV : K * (P1 * P3) ≤ 2 * 10 ^ 12 * (P1 * P3) := Nat.mul_le_mul_right _ hK
  have hU1 : (K - 1) * (P1 * P3) < m3 * P1 := by
    have h1 : (K - 1) * (P1 * P3) + P1 * P3 = K * (P1 * P3) := by
      calc (K - 1) * (P1 * P3) + P1 * P3 = (K - 1 + 1) * (P1 * P3) := by ring
        _ = K * (P1 * P3) := by rw [Nat.sub_add_cancel hK0]
    generalize (K - 1) * (P1 * P3) = L at h1 ⊢
    generalize K * (P1 * P3) = KV at *
    generalize c * (P1 * P3) = CV at *
    generalize P1 * P3 = V at *
    generalize m1 * P3 = T at *
    generalize m3 * P1 = U at *
    norm_num at *
    omega
  have hU2 : m3 * P1 ≤ K * (P1 * P3) := by
    generalize K * (P1 * P3) = KV at *
    generalize c * (P1 * P3) = CV at *
    generalize P1 * P3 = V at *
    generalize m1 * P3 = T at *
    generalize m3 * P1 = U at *
    norm_num at *
    omega
  have hP1pos : 0 < P1 := by omega
  constructor
  · have h : (K - 1) * P3 * P1 < m3 * P1 := by
      calc (K - 1) * P3 * P1 = (K - 1) * (P1 * P3) := by ring
        _ < m3 * P1 := hU1
    exact Nat.lt_of_mul_lt_mul_right h
  · have h : m3 * P1 ≤ K * P3 * P1 := by
      calc m3 * P1 ≤ K * (P1 * P3) := hU2
        _ = K * P3 * P1 := by ring
    exact Nat.le_of_mul_le_mul_right h hP1pos

theorem log2_pow (k : Nat) : log2 (2 ^ k) = k := by
  have h1 : k ≤ log2 (2 ^ k) := le_log2_of_pow_le (Nat.le_refl _)
  have h2 : log2 (2 ^ k) ≤ k :=
    log2_le_of_lt_pow (Nat.pow_pos (by decide))
      (Nat.pow_lt_pow_right (by decide) (Nat.lt_succ_self k))
  omega

theorem ceil_div_eq (m P K : Nat) (hK : 1 ≤ K) (h1 : (K - 1) * P < m)
    (h2 : m ≤ K * P) : (m + P - 1) / P = K := by
  have hP : 0 < P := by
    rcases Nat.eq_zero_or_pos P with h | h
    · subst h; simp at h1 h2; omega
    · exact h
  have h3 : (K - 1) * P + P = K * P := by
    calc (K - 1) * P + P = (K - 1 + 1) * P := by ring
      _ = K * P := by rw [Nat.sub_add_cancel hK]
  apply Nat.div_eq_of_lt_le
  · omega
  · rw [Nat.succ_mul]; omega

/-- A price that is a whole multiple of five units: both roundings are exact. -/
theorem product_exact (k P1 P3 : Nat) (hP1 : 0 < P1)
    (hg : 5 * k * P1 * 7205759403792794 * P3 < 2 ^ 53 * (2 ^ 55 * P1)) :
    roundHalfEven (5 * k * P1 * 7205759403792794 * P3) (2 ^ 55 * P1) = k * P3 := by
  have e1 : 5 * k * P1 * 7205759403792794 * P3 = 36028797018963970 * (k * P1 * P3) := by ring
  have e2 : k * P3 * (2 ^ 55 * P1) = 36028797018963968 * (k * P1 * P3) := by ring
  apply roundHalfEven_unique
  · exact Nat.mul_pos (by norm_num) hP1
  · rw [e1, e2]
    generalize k * P1 * P3 = A
    norm_num
    omega
  · rw [e1, e2]
    rw [e1] at hg
    generalize k * P1 * P3 = A at hg ⊢
    norm_num at hg ⊢
    omega

theorem f64_0_2_eq : f64_0_2 = .finite 7205759403792794 (-55) := by decide

/-- The float64 computation `int(math.Ceil(price * 0.2))` is exact below ten million
million: for a price of `c` hundredths, `c < 10^15`, it yields `⌈c / 500⌉`. -/
theorem item_float_exact (c : Nat) (hc : c < 10 ^ 15) :
    intOfFloat (mathCeil ((roundFloat64 c 100).mul f64_0_2)) = ((c + 499) / 500 : Nat) := by
  by_cases h0 : c = 0
  · subst h0; decide
  have hcpos : 0 < c := Nat.pos_of_ne_zero h0
  have hl100 : log2 100 = 6 := by decide
  have hlc : log2 c ≤ 49 := log2_le_of_lt_pow hcpos (by norm_num at hc ⊢; omega)
  obtain ⟨j1, hj1, hr1, -⟩ :=
    roundFloat64_neg c 100 9 hcpos (by decide) (by decide) (by decide) (by rw [hl100]; omega)
  have hP1 : 512 ≤ 2 ^ j1 := by
    calc 512 = 2 ^ 9 := by norm_num
      _ ≤ 2 ^ j1 := Nat.pow_le_pow_right (by decide) hj1
  obtain ⟨A1, A2⟩ := roundHalfEven_bounds (c * 2 ^ j1) 100 (by decide)
  have hcP : c * 2 ^ j1 ≤ (10 ^ 15 - 1) * 2 ^ j1 := Nat.mul_le_mul_right _ (by omega)
  have hcP2 : 1 * 2 ^ j1 ≤ c * 2 ^ j1 := Nat.mul_le_mul_right _ hcpos
  have hexp : -(-(j1 : Int) + -55) = ((j1 + 55 : Nat) : Int) := by push_cast; ring
  have hd : 1 * 2 ^ (j1 + 55) = 2 ^ 55 * 2 ^ j1 := by rw [Nat.pow_add]; ring
  rw [hr1, f64_0_2_eq, Float64.mul, hexp, scaleNum_nonneg, scaleDen_nonneg, hd]
  generalize hm1 : roundHalfEven (c * 2 ^ j1) 100 = m1 at A1 A2 ⊢
  have hm1pos : 0 < m1 * 7205759403792794 := by
    generalize c * 2 ^ j1 = CP at *
    omega
  have hlog_d : log2 (2 ^ 55 * 2 ^ j1) = j1 + 55 := by
    rw [← Nat.pow_add, log2_pow]; omega
  have hlog_n : log2 (m1 * 7205759403792794) ≤ 95 + j1 := by
    apply log2_le_of_lt_pow hm1pos
    rw [show 95 + j1 + 1 = 96 + j1 by omega, Nat.pow_add]
    generalize c * 2 ^ j1 = CP at *
    generalize 2 ^ j1 = P1 at *
    norm_num at *
    omega
  obtain ⟨j3, hj3, hr3, hg3⟩ :=
    roundFloat64_neg (m1 * 7205759403792794) (2 ^ 55 * 2 ^ j1) 12 hm1pos
      (Nat.mul_pos (by norm_num) (Nat.pow_pos (by decide))) (by decide) (by decide)
      (by rw [hlog_d]; omega)
  have hP3 : 4096 ≤ 2 ^ j3 := by
    calc 4096 = 2 ^ 12 := by norm_num
      _ ≤ 2 ^ j3 := Nat.pow_le_pow_right (by decide) hj3
  obtain ⟨B1, B2⟩ := roundHalfEven_bounds (m1 * 7205759403792794 * 2 ^ j3) (2 ^ 55 * 2 ^ j1)
    (Nat.mul_pos (by norm_num) (Nat.pow_pos (by decide)))
  rw [hr3, mathCeil, neg_neg, scaleNum_nonneg, scaleDen_nonneg, Nat.one_mul]
  have hKlt : (c + 499) / 500 < 9223372036854775808 := by omega
  have hv : (roundHalfEven (m1 * 7205759403792794 * 2 ^ j3) (2 ^ 55 * 2 ^ j1) + 2 ^ j3 - 1) /
      2 ^ j3 = (c + 499) / 500 := by
    by_cases hr : c % 500 = 0
    · obtain ⟨k, hk⟩ : ∃ k, c = 500 * k := ⟨c / 500, by omega⟩
      have hm1v : m1 = 5 * k * 2 ^ j1 := by
        rw [← hm1]
        apply roundHalfEven_unique _ _ _ (by decide)
        · rw [hk]
          have : 5 * k * 2 ^ j1 * 100 = 500 * k * 2 ^ j1 := by ring
          omega
        · rw [hk]
          have : 5 * k * 2 ^ j1 * 100 = 500 * k * 2 ^ j1 := by ring
          omega
      rw [hm1v] at hg3 ⊢
      rw [product_exact k (2 ^ j1) (2 ^ j3) (Nat.pow_pos (by decide)) hg3]
      have hk2 : (c + 499) / 500 = k := by omega
      rw [hk2]
      have hpos : 0 < 2 ^ j3 := Nat.pow_pos (by decide)
      apply Nat.div_eq_of_lt_le
      · omega
      · rw [Nat.succ_mul]; omega
    · apply ceil_div_eq _ _ _ (by omega)
      · exact (product_window c ((c + 499) / 500) m1 _ (2 ^ j1) (2 ^ j3) hP1 hP3 hc
          (by omega) (by omega) A1 A2 B1 B2).1
      · exact (product_window c ((c + 499) / 500) m1 _ (2 ^ j1) (2 ^ j3) hP1 hP3 hc
          (by omega) (by omega) A1 A2 B1 B2).2
  rw [hv]
  show (if (c + 499) / 500 < 9223372036854775808 then (((c + 499) / 500 : Nat) : Int)
    else intOfOutOfRange) = _
  rw [if_pos hKlt]

/-! ## C4 -/

theorem not_isDigit_dot : isDigit 46 = false := by decide

theorem takeWhile_digits (ds rest : GoString) (hall : ∀ b ∈ ds, isDigit b = true) :
    (ds ++ 46 :: rest).takeWhile isDigit = ds ∧
      (ds ++ 46 :: rest).dropWhile isDigit = 46 :: rest := by
  induction ds with
  | nil => simp [List.takeWhile, List.dropWhile, not_isDigit_dot]
  | cons a ds ih =>
    have ha : isDigit a = true := hall a (by simp)
    have ih2 := ih (fun b hb => hall b (List.mem_cons_of_mem _ hb))
    simp [List.takeWhile, List.dropWhile, ha, ih2.1, ih2.2]

theorem filter_digits (ds : GoString) (d1 d2 : Nat) (hall : ∀ b ∈ ds, isDigit b = true)
    (h1 : isDigit d1 = true) (h2 : isDigit d2 = true) :
    (ds ++ [46, d1, d2]).filter isDigit = ds ++ [d1, d2] := by
  rw [List.filter_append, List.filter_eq_self.mpr hall]
  simp [List.filter, not_isDigit_dot, h1, h2]

theorem parseFloat_shape (s ds : GoString) (d1 d2 : Nat) (h : decimalShape s ds d1 d2) :
    (strconvParseFloat s).1 = roundFloat64 (priceCents s) 100 := by
  obtain ⟨hne, hall, h1, h2, hs⟩ := h
  unfold strconvParseFloat priceCents
  rw [hs, filter_digits ds d1 d2 hall h1 h2]
  obtain ⟨ht, hd⟩ := takeWhile_digits ds [d1, d2] hall
  simp only [ht, hd, List.drop_succ_cons, List.drop_zero, List.head?_cons, List.all_cons,
    List.all_nil, h1, h2, Bool.and_self, List.length_cons, List.length_nil]
  rw [if_pos (by simp)]
  norm_num

theorem trim_eq_stripped (s : GoString) :
    stringsTrim s (str " \t\n\r") = stripped isTrimChar s := by
  have hf : inCutset (str " \t\n\r") = isTrimChar := by
    funext b
    rw [str_cutset]
    simp only [inCutset, isTrimChar, List.contains, List.elem]
    cases (b == 32) <;> cases (b == 9) <;> cases (b == 10) <;> cases (b == 13) <;> rfl
  unfold stringsTrim stripped List.rdropWhile
  rw [hf]

theorem itemAward_eq (i : item) (hv : structValidatorItem i = none)
    (hb : priceCents i.Price < 10 ^ 15) :
    itemAward i = ruleItemAward isTrimChar i := by
  obtain ⟨ds, d1, d2, hshape⟩ := (structValidatorItem_none hv).1
  unfold itemAward ruleItemAward
  rw [trim_eq_stripped, parseFloat_shape _ ds d1 d2 hshape, item_float_exact _ hb]

/-- C4 as stated fails on two items that `structValidator` admits; in both cases the two
sides of the equation of the claim are evaluated on the second test receipt. The
description `ab` followed by a form feed has length 2 once all whitespace is stripped, so
the rule adds nothing to the 31 points, but `strings.Trim` with the cutset of space, tab,
line feed and carriage return keeps the form feed and the code returns 32. For the price
`200000000000000.01` the rule adds `⌈20000000000000001 / 500⌉ = 40000000000001`, but the
float64 product adds `40000000000000`. -/
theorem C4_counterexample :
    (structValidatorItem formFeedItem = none ∧
      calculatePoints { testReceipt2 with Items := [formFeedItem] } = some 32 ∧
      (calculatePoints { testReceipt2 with Items := [] }).map
        (fun p => p + ruleItemAward isSpace formFeedItem) = some 31) ∧
    (structValidatorItem largePriceItem = none ∧
      calculatePoints { testReceipt2 with Items := [largePriceItem] } =
        some 40000000000031 ∧
      (calculatePoints { testReceipt2 with Items := [] }).map
        (fun p => p + ruleItemAward isSpace largePriceItem) = some 40000000000032) := by
  decide

/-- C4, amended: for an item that `structValidator` admits and whose price is below
`10000000000000.00` (`10^15` hundredths), the points of the receipt with that single item
are the points of the receipt without items plus `⌈cents / 500⌉`, the price times `0.2`
rounded up, when the length of the description without leading and trailing space, tab,
line feed and carriage return is a multiple of 3, and plus nothing otherwise. The sum is
the addition of Go `int`; it is exact whenever it fits in 64 bits. -/
theorem C4_item_award (r : receipt) (i : item) (hv : structValidatorItem i = none)
    (hb : priceCents i.Price < 10 ^ 15) :
    calculatePoints { r with Items := [i] } =
        (calculatePoints { r with Items := [] }).map
          (fun p => wrapInt (p + ruleItemAward isTrimChar i)) ∧
      ∀ p, calculatePoints { r with Items := [] } = some p →
        p + ruleItemAward isTrimChar i < 9223372036854775808 →
        calculatePoints { r with Items := [i] } = some (p + ruleItemAward isTrimChar i) := by
  apply calculatePoints_shift
  · unfold ruleItemAward
    split
    · exact Int.ofNat_nonneg _
    · exact le_refl _
  · exact Iff.rfl
  · rw [rawPoints_items r [i], ← itemAward_eq i hv hb]
    simp

/-- Witness of C4: the last item of the third test receipt, alone on the second test
receipt, adds `⌈1200 / 500⌉ = 3` to the 31 points of that receipt without items. -/
theorem C4_item_award_witness :
    (structValidatorItem (mkItem "   Klarbrunn 12-PK 12 FL OZ  " "12.00") = none ∧
      priceCents (mkItem "   Klarbrunn 12-PK 12 FL OZ  " "12.00").Price < 10 ^ 15) ∧
    calculatePoints { testReceipt2 with Items := [] } = some 31 ∧
    ruleItemAward isTrimChar (mkItem "   Klarbrunn 12-PK 12 FL OZ  " "12.00") = 3 ∧
    calculatePoints
        { testReceipt2 with Items := [mkItem "   Klarbrunn 12-PK 12 FL OZ  " "12.00"] } =
      some (31 + ruleItemAward isTrimChar (mkItem "   Klarbrunn 12-PK 12 FL OZ  " "12.00")) :=
  ⟨by decide, by decide, by decide,
   (C4_item_award testReceipt2 (mkItem "   Klarbrunn 12-PK 12 FL OZ  " "12.00") (by decide)
      (by decide)).2 31 (by decide) (by decide)⟩

/-! ## C14 -/

/-- C14: the score does not depend on the order of the items. For every receipt `r` and
every permutation `l` of its items, `calculatePoints` on `r` with the items `l` is
`calculatePoints` on `r`: the same points, or a panic in both cases. -/
theorem C14_order_of_items (r : receipt) (l : List item) (h : l.Perm r.Items) :
    calculatePoints { r with Items := l } = calculatePoints r := by
  rw [calculatePoints_eq, calculatePoints_eq]
  have hraw : rawPoints { r with Items := l } = rawPoints r := by
    unfold rawPoints
    simp only [h.length_eq, (h.map itemAward).sum_eq]
  have hs : slicesOk { r with Items := l } ↔ slicesOk r := Iff.rfl
  by_cases hr : slicesOk r
  · rw [if_pos hr, if_pos (hs.mpr hr), hraw]
  · rw [if_neg hr, if_neg (fun h2 => hr (hs.mp h2))]

/-- Witness of C14: the third test receipt with its five items in reverse order. -/
theorem C14_order_of_items_witness :
    testReceipt3.Items.reverse.Perm testReceipt3.Items ∧
      calculatePoints { testReceipt3 with Items := testReceipt3.Items.reverse } =
        calculatePoints testReceipt3 :=
  ⟨List.reverse_perm _,
   C14_order_of_items testReceipt3 testReceipt3.Items.reverse (List.reverse_perm _)⟩

/-! ## C16 -/

theorem rePurchaseDate_of_shape {s : GoString} {y1 y2 y3 y4 m1 m2 d1 d2 : Nat}
    (h : dateShape s y1 y2 y3 y4 m1 m2 d1 d2) : regexpMatch rePurchaseDate s = true :=
  (rePurchaseDate_iff s).mpr
    ⟨[], [], y1, y2, y3, y4, m1, m2, d1, d2, h.1, by rw [h.2]; simp⟩

theorem rePurchaseTime_of_shape {s : GoString} {h1 h2 m1 m2 : Nat}
    (h : timeShape s h1 h2 m1 m2) : regexpMatch rePurchaseTime s = true :=
  (rePurchaseTime_iff s).mpr ⟨[], [], h1, h2, m1, m2, h.1, by rw [h.2]; simp⟩

theorem structValidatorItem_of_valid {i : item} (hd : validDescription i.ShortDescription)
    (hp : validDecimal i.Price) : structValidatorItem i = none := by
  rw [structValidatorItem_eq]
  exact if_pos ⟨(rePrice_iff _).mpr hp, (reShortDescription_iff _).mpr hd⟩

theorem structValidator_of_accepts {r : receipt} (h : accepts r) : structValidator r = none := by
  rw [structValidator_eq]
  exact if_pos h

/-- C16: `structValidator` returns `nil` for every receipt whose retailer is a non-empty
string of word characters, whitespace, `-` and `&`, whose date has the shape `YYYY-MM-DD`,
whose time has the shape `HH:MM`, whose total is digits, a dot and two digits, and which
has at least one item, each with a non-empty description of word characters, whitespace
and `-` and a price of digits, a dot and two digits. No condition is put on the fields
`ID`, `Id` and `ReceiptId`: the receipt is accepted with any values written there. -/
theorem C16_accepts_valid (r : receipt) (y1 y2 y3 y4 mo1 mo2 d1 d2 h1 h2 mi1 mi2 : Nat)
    (hR : validRetailer r.Retailer)
    (hD : dateShape r.PurchaseDate y1 y2 y3 y4 mo1 mo2 d1 d2)
    (hT : timeShape r.PurchaseTime h1 h2 mi1 mi2)
    (hTot : validDecimal r.Total)
    (hI : r.Items ≠ [])
    (hEach : ∀ i ∈ r.Items, validDescription i.ShortDescription ∧ validDecimal i.Price) :
    structValidator r = none ∧
      ∀ (id : GoString) (ids : item → GoString × GoString),
        structValidator
          { r with
            ID := id
            Items := r.Items.map
              (fun i => { i with Id := (ids i).1, ReceiptId := (ids i).2 }) } = none := by
  have hlen : 1 ≤ r.Items.length := by
    cases hr : r.Items with
    | nil => exact absurd hr hI
    | cons a l => simp
  refine ⟨structValidator_of_accepts
    ⟨(rePrice_iff _).mpr hTot, hlen,
      fun i hi => structValidatorItem_of_valid (hEach i hi).1 (hEach i hi).2,
      rePurchaseTime_of_shape hT, rePurchaseDate_of_shape hD, (reRetailer_iff _).mpr hR⟩, ?_⟩
  intro id ids
  refine structValidator_of_accepts
    ⟨(rePrice_iff _).mpr hTot, by simpa using hlen, ?_,
      rePurchaseTime_of_shape hT, rePurchaseDate_of_shape hD, (reRetailer_iff _).mpr hR⟩
  intro j hj
  obtain ⟨i, hi, rfl⟩ := List.mem_map.mp hj
  exact structValidatorItem_of_valid (hEach i hi).1 (hEach i hi).2

theorem items_valid_of_item_checks {l : List item}
    (h : ∀ i ∈ l, structValidatorItem i = none) :
    ∀ i ∈ l, validDescription i.ShortDescription ∧ validDecimal i.Price :=
  fun i hi => ⟨(structValidatorItem_none (h i hi)).2, (structValidatorItem_none (h i hi)).1⟩

/-- Witness of C16: the four receipts of `TestServer` meet the conditions and are
accepted. -/
theorem C16_accepts_valid_witness :
    (validRetailer testReceipt1.Retailer ∧ testReceipt1.Items ≠ []) ∧
      structValidator testReceipt1 = none ∧ structValidator testReceipt2 = none ∧
      structValidator testReceipt3 = none ∧ structValidator testReceipt4 = none :=
  ⟨⟨by unfold validRetailer; decide, by decide⟩,
   (C16_accepts_valid testReceipt1 50 48 50 50 48 49 48 50 48 56 49 51
      (by unfold validRetailer; decide) (by unfold dateShape; decide)
      (by unfold timeShape; decide) ((rePrice_iff _).mp (by decide)) (by decide)
      (items_valid_of_item_checks (by decide))).1,
   (C16_accepts_valid testReceipt2 50 48 50 50 48 49 48 50 49 51 49 51
      (by unfold validRetailer; decide) (by unfold dateShape; decide)
      (by unfold timeShape; decide) ((rePrice_iff _).mp (by decide)) (by decide)
      (items_valid_of_item_checks (by decide))).1,
   (C16_accepts_valid testReceipt3 50 48 50 50 48 49 48 49 49 51 48 49
      (by unfold validRetailer; decide) (by unfold dateShape; decide)
      (by unfold timeShape; decide) ((rePrice_iff _).mp (by decide)) (by decide)
      (items_valid_of_item_checks (by decide))).1,
   (C16_accepts_valid testReceipt4 50 48 50 50 48 51 50 48 49 52 51 51
      (by unfold validRetailer; decide) (by unfold dateShape; decide)
      (by unfold timeShape; decide) ((rePrice_iff _).mp (by decide)) (by decide)
      (items_valid_of_item_checks (by decide))).1⟩

/-! ## C17 -/

theorem length_of_validDecimal {s : GoString} (h : validDecimal s) : 4 ≤ s.length := by
  obtain ⟨ds, d1, d2, hne, -, -, -, hs⟩ := h
  rw [hs, List.length_append]
  have : 0 < ds.length := List.length_pos.mpr hne
  simp only [List.length_cons, List.length_nil]
  omega

/-- An accepted receipt has its three slices in range: `calculatePoints` does not panic. -/
theorem slicesOk_of_accepts {r : receipt} (h : accepts r) : slicesOk r := by
  obtain ⟨hT, -, -, hTime, hDate, -⟩ := h
  have h1 := length_of_validDecimal ((rePrice_iff _).mp hT)
  obtain ⟨pre, post, y1, y2, y3, y4, m1, m2, d1, d2, -, hd⟩ := (rePurchaseDate_iff _).mp hDate
  obtain ⟨pre2, post2, a1, a2, b1, b2, -, ht⟩ := (rePurchaseTime_iff _).mp hTime
  refine ⟨by omega, ?_, ?_⟩
  · rw [hd]; simp only [List.length_append, List.length_cons, List.length_nil]; omega
  · rw [ht]; simp only [List.length_append, List.length_cons, List.length_nil]; omega

/-- C17, on the code: the pattern of `price` puts no bound on the number of digits, and
`strconv.ParseFloat` returns `+Inf` with a range error for a value beyond the largest
`float64`. The second test receipt with one item priced `1` followed by 309 zeros and
`.00` is accepted by `structValidator`, and parsing that price returns an error, the one
that `calculatePoints` ignores. -/
theorem C17_price_out_of_range :
    structValidator { testReceipt2 with Items := [longPriceItem] } = none ∧
      strconvParseFloat longPriceItem.Price = (.inf, true) := by
  decide

/-! ## C18 -/

theorem quote_not_in_class :
    (isWord 39 || isSpace 39 || 39 == 45 || 39 == 38) = false ∧ isDigit 39 = false := by
  decide

theorem no_quote_of_validRetailer {s : GoString} (h : validRetailer s) : 39 ∉ s := by
  intro hm
  have := h.2 39 hm
  rw [quote_not_in_class.1] at this
  exact Bool.noConfusion this

theorem no_quote_of_validDescription {s : GoString} (h : validDescription s) : 39 ∉ s := by
  intro hm
  have h2 := h.2 39 hm
  have h3 : (isWord 39 || isSpace 39 || 39 == 45) = false := by decide
  rw [h3] at h2
  exact Bool.noConfusion h2

theorem no_quote_of_validDecimal {s : GoString} (h : validDecimal s) : 39 ∉ s := by
  obtain ⟨ds, d1, d2, -, hall, h1, h2, hs⟩ := h
  intro hm
  rw [hs] at hm
  simp only [List.mem_append, List.mem_cons, List.mem_singleton, List.mem_nil_iff,
    or_false] at hm
  have hq : isDigit 39 = false := quote_not_in_class.2
  rcases hm with hm | hm | hm | hm
  · have := hall 39 hm; rw [hq] at this; exact Bool.noConfusion this
  · omega
  · rw [← hm, hq] at h1; exact Bool.noConfusion h1
  · rw [← hm, hq] at h2; exact Bool.noConfusion h2

/-- The four anchored patterns keep the single quote out: in an accepted receipt neither
the retailer, nor the total, nor the description or the price of an item holds one. -/
theorem no_quote_of_accepts {r : receipt} (h : accepts r) :
    39 ∉ r.Retailer ∧ 39 ∉ r.Total ∧
      ∀ i ∈ r.Items, 39 ∉ i.ShortDescription ∧ 39 ∉ i.Price := by
  refine ⟨no_quote_of_validRetailer ((reRetailer_iff _).mp h.2.2.2.2.2),
    no_quote_of_validDecimal ((rePrice_iff _).mp h.1), fun i hi => ?_⟩
  have hv := structValidatorItem_none (h.2.2.1 i hi)
  exact ⟨no_quote_of_validDescription hv.2, no_quote_of_validDecimal hv.1⟩

/-- C18, on the code: the patterns of `purchaseDate` and `purchaseTime` are not anchored, so
they let a single quote through. The second test receipt with the date `2022-01-02`
followed by a single quote and the time `13:13` preceded by one is accepted by
`structValidator`, and both values, which `processReceipt` writes between single quotes,
hold the byte 39. -/
theorem C18_quote_in_date_and_time :
    structValidator quoteReceipt = none ∧
      39 ∈ quoteReceipt.PurchaseDate ∧ 39 ∈ quoteReceipt.PurchaseTime := by
  decide

/-! ## C12 -/

theorem quoteFree_iff (v : GoString) : quoteFree v = true ↔ 39 ∉ v := by
  unfold quoteFree
  exact decide_eq_true_iff

theorem queryReceiptRow_of_quoteFree (env : ReadEnv) (db : DB) (id : GoString)
    (hid : 39 ∉ id) :
    queryReceiptRow env db id = db.receipts.find? (fun x => x.id = id) := by
  unfold queryReceiptRow
  rw [if_pos ((quoteFree_iff id).mpr hid)]

theorem queryItemRows_of_quoteFree (env : ReadEnv) (db : DB) (id : GoString)
    (hid : 39 ∉ id) :
    queryItemRows env db id = env.order (db.items.filter (fun x => x.receipt_id = id)) := by
  unfold queryItemRows
  rw [if_pos ((quoteFree_iff id).mpr hid)]

/-- For an identifier without single quote, without a failure of the iteration, and when
`db.Query` does not report `sql.ErrNoRows`, `getReceiptById` returns `nil, nil` exactly
when the table holds no receipt row with the identifier. -/
theorem getReceiptById_absent_iff (env : ReadEnv) (db : DB) (id : GoString)
    (hid : 39 ∉ id) (hq : env.queryErr ≠ some .errNoRows) (hi : env.iterErr = none) :
    getReceiptById env db id = (none, none) ↔
      env.rowErr = none ∧ db.receipts.find? (fun x => x.id = id) = none := by
  unfold getReceiptById
  rw [queryReceiptRow_of_quoteFree env db id hid]
  cases hrow : env.rowErr with
  | some e => simp
  | none =>
    cases hf : db.receipts.find? (fun x => x.id = id) with
    | none => simp
    | some row =>
      simp only [hi]
      cases hqe : env.queryErr with
      | none =>
        simp only
        cases scanItems env 0 (queryItemRows env db id) [] with
        | error e => simp
        | ok items => simp
      | some err =>
        cases err with
        | errNoRows => exact absurd hqe hq
        | other e => simp

/-- C12, on the code: after the loop, `if rows.Err() != nil { return nil, err }` returns the
`err` of the function body, which is `nil` once `db.Query` has succeeded. The store holds
the second test receipt under the identifier `id0`; when the iteration over its item rows
fails, `getReceiptById` returns `nil, nil`, the answer for an unknown identifier, and
`getReceiptPoints` answers 404. -/
theorem C12_iteration_error_reads_as_absent :
    (storeWithReceipt2.receipts.find? (fun x => x.id = testUuids 0)).isSome = true ∧
      getReceiptById iterationFails storeWithReceipt2 (testUuids 0) = (none, none) ∧
      getReceiptPoints iterationFails storeWithReceipt2 "GET" (testUuids 0) =
        .error 404 "No receipt found for that id" := by
  decide

/-! ## C13 -/

/-- C13 as stated fails: the second test receipt with two items described `abc` and priced
`23058430092136939520.00` is accepted by `structValidator`; each item earns `2^62` points,
the sum passes the largest `int` and `calculatePoints` returns a negative number. -/
theorem C13_counterexample :
    structValidator overflowReceipt = none ∧
      calculatePoints overflowReceipt = some (-9223372036854775772) := by
  decide

theorem totalAward_bounds (t : GoString) : 0 ≤ totalAward t ∧ totalAward t ≤ 75 := by
  unfold totalAward
  constructor <;> split_ifs <;> decide

theorem dateAward_bounds (d : GoString) : 0 ≤ dateAward d ∧ dateAward d ≤ 6 := by
  unfold dateAward
  constructor <;> split_ifs <;> decide

theorem timeAward_bounds (h : GoString) : 0 ≤ timeAward h ∧ timeAward h ≤ 10 := by
  unfold timeAward
  constructor <;> split_ifs <;> decide

theorem ruleItemAward_bounds (ws : Nat → Bool) (i : item) (hb : priceCents i.Price < 10 ^ 15) :
    0 ≤ ruleItemAward ws i ∧ ruleItemAward ws i ≤ 2000000000000 := by
  unfold ruleItemAward
  split
  · constructor
    · exact Int.ofNat_nonneg _
    · have : (priceCents i.Price + 499) / 500 ≤ 2000000000000 := by
        norm_num at hb
        omega
      exact_mod_cast this
  · constructor <;> decide

theorem sum_bounds (l : List item) (f : item → Int) (B : Int)
    (h : ∀ i ∈ l, 0 ≤ f i ∧ f i ≤ B) :
    0 ≤ (l.map f).sum ∧ (l.map f).sum ≤ B * l.length := by
  induction l with
  | nil => simp
  | cons a l ih =>
    have ha := h a (by simp)
    have hl := ih (fun i hi => h i (List.mem_cons_of_mem _ hi))
    simp only [List.map_cons, List.sum_cons, List.length_cons]
    push_cast
    constructor
    · omega
    · have : B * ((l.length : Int) + 1) = B * l.length + B := by ring
      omega

/-- C13, amended: for every receipt accepted by `structValidator` whose prices are all
below `10000000000000.00`, with at most 1000000 items and a retailer name of at most
1000000 bytes, `calculatePoints` returns a non-negative integer. -/
theorem C13_points_nonneg (r : receipt) (hacc : structValidator r = none)
    (hprice : ∀ i ∈ r.Items, priceCents i.Price < 10 ^ 15)
    (hitems : r.Items.length ≤ 1000000) (hret : r.Retailer.length ≤ 1000000) :
    ∃ p, calculatePoints r = some p ∧ 0 ≤ p := by
  have ha := accepts_of_none hacc
  have hs := slicesOk_of_accepts ha
  have hcount : r.Retailer.countP counted ≤ r.Retailer.length := List.countP_le_length _
  have hT := totalAward_bounds (r.Total.drop (r.Total.length - 2))
  have hD := dateAward_bounds (r.PurchaseDate.drop (r.PurchaseDate.length - 1))
  have hH := timeAward_bounds (r.PurchaseTime.take 2)
  have hI := sum_bounds r.Items itemAward 2000000000000 (fun i hi => by
    rw [itemAward_eq i (ha.2.2.1 i hi) (hprice i hi)]
    exact ruleItemAward_bounds _ i (hprice i hi))
  have hn : ((r.Items.length : Nat) : Int) ≤ 1000000 := by exact_mod_cast hitems
  have hn0 : (0 : Int) ≤ (r.Items.length : Int) := Int.ofNat_nonneg _
  have hc : ((r.Retailer.countP counted : Nat) : Int) ≤ 1000000 := by
    have : r.Retailer.countP counted ≤ 1000000 := by omega
    exact_mod_cast this
  have hc0 : (0 : Int) ≤ (r.Retailer.countP counted : Int) := Int.ofNat_nonneg _
  have hraw : 0 ≤ rawPoints r ∧ rawPoints r < 9223372036854775808 := by
    unfold rawPoints
    generalize (r.Items.map itemAward).sum = S at hI
    generalize totalAward _ = T at hT
    generalize dateAward _ = D at hD
    generalize timeAward _ = H at hH
    generalize (r.Items.length : Int) = n at *
    generalize (r.Retailer.countP counted : Int) = c at *
    constructor <;> omega
  refine ⟨rawPoints r, ?_, hraw.1⟩
  rw [calculatePoints_eq, if_pos hs, wrapInt_of_range (by omega) hraw.2]

/-- Witness of C13: the third test receipt. -/
theorem C13_points_nonneg_witness :
    (structValidator testReceipt3 = none ∧
      (∀ i ∈ testReceipt3.Items, priceCents i.Price < 10 ^ 15) ∧
      testReceipt3.Items.length ≤ 1000000 ∧ testReceipt3.Retailer.length ≤ 1000000) ∧
    ∃ p, calculatePoints testReceipt3 = some p ∧ 0 ≤ p :=
  ⟨by decide,
   C13_points_nonneg testReceipt3 (by decide) (by decide) (by decide) (by decide)⟩

/-! ## The write of processReceipt -/

theorem structValidator_ID (r : receipt) (id : GoString) :
    structValidator { r with ID := id } = structValidator r := rfl

theorem txnExec_of_quoteFree (env : Env) (k : Nat) (txn : DB) (st : Stmt)
    (h : ∀ v ∈ st.values, 39 ∉ v) : txnExec env k txn st = execInsert env k txn st := by
  unfold txnExec
  rw [if_pos]
  rw [List.all_eq_true]
  intro v hv
  exact (quoteFree_iff v).mpr (h v hv)

theorem execInsert_receipt_ok {env : Env} {k : Nat} {txn txn1 : DB} {row : receiptRow}
    (h : execInsert env k txn (.insertReceipt row) = .ok txn1) :
    txn1 = ⟨txn.receipts ++ [row], txn.items⟩ ∧
      txn.receipts.any (fun x => x.id = row.id) = false := by
  unfold execInsert at h
  cases he : env.execErr k with
  | some e => rw [he] at h; exact Except.noConfusion h
  | none =>
    rw [he] at h
    simp only at h
    by_cases hc : txn.receipts.any (fun x => x.id = row.id) = true
    · rw [if_pos hc] at h; exact Except.noConfusion h
    · rw [if_neg hc] at h
      exact ⟨(Except.ok.inj h).symm, by simpa using hc⟩

theorem execInsert_item_ok {env : Env} {k : Nat} {txn txn1 : DB} {row : itemRow}
    (h : execInsert env k txn (.insertItem row) = .ok txn1) :
    txn1 = ⟨txn.receipts, txn.items ++ [row]⟩ := by
  unfold execInsert at h
  cases he : env.execErr k with
  | some e => rw [he] at h; exact Except.noConfusion h
  | none =>
    rw [he] at h
    simp only at h
    by_cases hc : txn.items.any (fun x => x.id = row.id ∧ x.receipt_id = row.receipt_id) = true
    · rw [if_pos hc] at h; exact Except.noConfusion h
    · rw [if_neg hc] at h
      exact (Except.ok.inj h).symm

theorem insertItems_ok (env : Env) (rid : GoString) (is : List item)
    (hu : ∀ k, 39 ∉ env.uuids k) (hrid : 39 ∉ rid)
    (his : ∀ i ∈ is, 39 ∉ i.ShortDescription ∧ 39 ∉ i.Price) :
    ∀ (k : Nat) (txn txn1 : DB), (insertItems env rid k txn is).1 = .ok txn1 →
      txn1 = ⟨txn.receipts, txn.items ++ itemRows env rid k is⟩ := by
  induction is with
  | nil =>
    intro k txn txn1 h
    simp only [insertItems] at h
    simp [itemRows, ← Except.ok.inj h]
  | cons i is ih =>
    intro k txn txn1 h
    rw [insertItems] at h
    simp only at h
    have hq : ∀ v ∈ (Stmt.insertItem ⟨env.uuids k, rid, i.ShortDescription, i.Price⟩).values,
        39 ∉ v := by
      intro v hv
      simp only [Stmt.values, List.mem_cons, List.mem_singleton, List.mem_nil_iff,
        or_false] at hv
      rcases hv with hv | hv | hv | hv
      · rw [hv]; exact hu k
      · rw [hv]; exact hrid
      · rw [hv]; exact (his i (List.mem_cons_self _ _)).1
      · rw [hv]; exact (his i (List.mem_cons_self _ _)).2
    cases hx : txnExec env k txn
        (.insertItem ⟨env.uuids k, rid, i.ShortDescription, i.Price⟩) with
    | error e => rw [hx] at h; exact Except.noConfusion h
    | ok txn2 =>
      rw [hx] at h
      simp only at h
      have h2 := ih (fun j hj => his j (List.mem_cons_of_mem _ hj)) (k + 1) txn2 txn1 h
      rw [txnExec_of_quoteFree env k txn _ hq] at hx
      rw [h2, execInsert_item_ok hx]
      simp [itemRows]

/-- When no spliced value holds a single quote and every INSERT of the call succeeds, the
transaction holds the store with the receipt row and all item rows added, and the
identifier of the receipt was not in the table. -/
theorem writeRows_ok {env : Env} {db txn1 : DB} {sR : receipt} (hs : spliceSafe env sR)
    (h : writeRows env db sR = .ok txn1) :
    txn1 = withReceipt env db sR ∧
      db.receipts.any (fun x => x.id = sR.ID) = false := by
  obtain ⟨hu, hid, hret, hdate, htime, htotal, hitems⟩ := hs
  have hq : ∀ v ∈ (Stmt.insertReceipt
      ⟨sR.ID, sR.Retailer, sR.PurchaseDate, sR.PurchaseTime, sR.Total⟩).values, 39 ∉ v := by
    intro v hv
    simp only [Stmt.values, List.mem_cons, List.mem_singleton, List.mem_nil_iff,
      or_false] at hv
    rcases hv with hv | hv | hv | hv | hv
    · rw [hv]; exact hid
    · rw [hv]; exact hret
    · rw [hv]; exact hdate
    · rw [hv]; exact htime
    · rw [hv]; exact htotal
  unfold writeRows at h
  cases hx : txnExec env 0 db
      (.insertReceipt ⟨sR.ID, sR.Retailer, sR.PurchaseDate, sR.PurchaseTime, sR.Total⟩) with
  | error e => rw [hx] at h; exact Except.noConfusion h
  | ok txn =>
    rw [hx] at h
    simp only at h
    rw [txnExec_of_quoteFree env 0 db _ hq] at hx
    obtain ⟨ht, hany⟩ := execInsert_receipt_ok hx
    have h2 := insertItems_ok env sR.ID sR.Items hu hid hitems 1 txn txn1 h
    rw [h2, ht]
    exact ⟨rfl, hany⟩

/-- For an accepted receipt only the date and the time can hold a single quote (the
patterns of the other fields exclude it): when they hold none, and the identifiers hold
none, no spliced value does. -/
theorem spliceSafe_of_accepted (env : Env) (r : receipt) (hacc : structValidator r = none)
    (hu : ∀ k, 39 ∉ env.uuids k) (hq : 39 ∉ r.PurchaseDate ∧ 39 ∉ r.PurchaseTime) :
    spliceSafe env { r with ID := env.uuids 0 } := by
  obtain ⟨h1, h2, h3⟩ := no_quote_of_accepts (accepts_of_none hacc)
  exact ⟨hu, hu 0, h1, hq.1, hq.2, h2, h3⟩

/-- The answer and the committed store of `processReceipt` for a POST request with an
accepted receipt, when `Begin` succeeds, by the result of the INSERTs. -/
theorem processReceipt_accepted (env : Env) (db : DB) (req : Request) (r : receipt)
    (hm : req.method = "POST") (hbody : req.body = .ok r)
    (hacc : structValidator r = none) (hbegin : env.beginErr = false) :
    (processReceipt env db req).response =
        (match writeRows env db { r with ID := env.uuids 0 } with
          | .error e => .error 500 e
          | .ok _ => .processed (env.uuids 0)) ∧
      (processReceipt env db req).db =
        (match writeRows env db { r with ID := env.uuids 0 } with
          | .error _ => db
          | .ok txn1 => if env.commitErr then db else txn1) := by
  have hacc2 : structValidator { r with ID := env.uuids 0 } = none := hacc
  unfold processReceipt writeRows
  rw [if_neg (by simp [hm]), hbody]
  simp only [hacc2, hbegin]
  cases hx : txnExec env 0 db
      (.insertReceipt ⟨env.uuids 0, r.Retailer, r.PurchaseDate, r.PurchaseTime, r.Total⟩) with
  | error e => simp
  | ok txn =>
    simp only
    rcases hy : insertItems env (env.uuids 0) 1 txn r.Items with ⟨res, sts⟩
    cases res with
    | error e => simp
    | ok txn1 => simp

theorem testUuids_quoteFree : ∀ k, 39 ∉ testUuids k := by
  intro k h
  unfold testUuids at h
  rw [List.mem_append] at h
  rcases h with h | h
  · exact absurd h (by decide)
  · rw [List.mem_singleton] at h
    omega

/-! ## C15 -/

/-- C15 as stated fails when `Commit` fails: for the second test receipt posted to the empty
store every INSERT succeeds (the transaction holds the receipt row and the item row), but
the committed store after the call is still empty, so no row of the call is visible. -/
theorem C15_counterexample :
    (writeRows commitFails emptyDB { testReceipt2 with ID := testUuids 0 }).toOption =
        some (withReceipt commitFails emptyDB { testReceipt2 with ID := testUuids 0 }) ∧
      withReceipt commitFails emptyDB { testReceipt2 with ID := testUuids 0 } ≠ emptyDB ∧
      (processReceipt commitFails emptyDB ⟨"POST", .ok testReceipt2⟩).db = emptyDB := by
  decide

/-- C15, amended: for a POST request with an accepted receipt whose date and time hold no
single quote (no other spliced value can hold one: the identifiers are hexadecimal digits
and dashes), once the transaction is begun. If the INSERT of the receipt row or of an item
row fails, the committed store after the call is the committed store before it and the
caller receives the storage failure (status 500) instead of an identifier. If every INSERT
succeeds and `Commit` succeeds, the committed store after the call is the store before it
with the receipt row and all of its item rows added, and the caller receives the
identifier. If every INSERT succeeds and `Commit` fails, the committed store is unchanged:
in every case the rows of the call are visible all together or not at all. -/
theorem C15_all_or_nothing (env : Env) (db : DB) (req : Request) (r : receipt)
    (hm : req.method = "POST") (hbody : req.body = .ok r)
    (hacc : structValidator r = none)
    (hquote : 39 ∉ r.PurchaseDate ∧ 39 ∉ r.PurchaseTime) (huuid : ∀ k, 39 ∉ env.uuids k)
    (hbegin : env.beginErr = false) :
    (∀ e, writeRows env db { r with ID := env.uuids 0 } = .error e →
        (processReceipt env db req).db = db ∧
        (processReceipt env db req).response = .error 500 e) ∧
      (∀ txn, writeRows env db { r with ID := env.uuids 0 } = .ok txn →
        (env.commitErr = false →
          (processReceipt env db req).db = withReceipt env db { r with ID := env.uuids 0 } ∧
          (processReceipt env db req).response = .processed (env.uuids 0)) ∧
        (env.commitErr = true → (processReceipt env db req).db = db)) := by
  obtain ⟨hresp, hdb⟩ := processReceipt_accepted env db req r hm hbody hacc hbegin
  constructor
  · intro e he
    rw [hresp, hdb, he]
    exact ⟨rfl, rfl⟩
  · intro txn ht
    have htxn := (writeRows_ok (spliceSafe_of_accepted env r hacc huuid hquote) ht).1
    rw [hresp, hdb, ht]
    constructor
    · intro hc
      simp [hc, htxn]
    · intro hc
      simp [hc]

/-- Witness of C15: the second test receipt posted to the empty store. Without failure the
store then holds its receipt row and its item row and the caller receives the identifier;
when the INSERT of the item row fails the store stays empty and the caller receives the
failure. -/
theorem C15_all_or_nothing_witness :
    (structValidator testReceipt2 = none ∧
      (39 ∉ testReceipt2.PurchaseDate ∧ 39 ∉ testReceipt2.PurchaseTime) ∧
      (∀ k, 39 ∉ quietEnv.uuids k) ∧ (∀ k, 39 ∉ itemInsertFails.uuids k) ∧
      quietEnv.beginErr = false ∧ quietEnv.commitErr = false ∧
      itemInsertFails.beginErr = false) ∧
    ((processReceipt quietEnv emptyDB ⟨"POST", .ok testReceipt2⟩).db =
        withReceipt quietEnv emptyDB { testReceipt2 with ID := quietEnv.uuids 0 } ∧
      (processReceipt quietEnv emptyDB ⟨"POST", .ok testReceipt2⟩).response =
        .processed (quietEnv.uuids 0)) ∧
    ((processReceipt itemInsertFails emptyDB ⟨"POST", .ok testReceipt2⟩).db = emptyDB ∧
      (processReceipt itemInsertFails emptyDB ⟨"POST", .ok testReceipt2⟩).response =
        .error 500 "write error") :=
  ⟨⟨by decide, by decide, testUuids_quoteFree, testUuids_quoteFree, rfl, rfl, rfl⟩,
   ((C15_all_or_nothing quietEnv emptyDB ⟨"POST", .ok testReceipt2⟩ testReceipt2 rfl rfl
      (by decide) (by decide) testUuids_quoteFree rfl).2
      (withReceipt quietEnv emptyDB { testReceipt2 with ID := quietEnv.uuids 0 }) rfl).1 rfl,
   (C15_all_or_nothing itemInsertFails emptyDB ⟨"POST", .ok testReceipt2⟩ testReceipt2 rfl rfl
      (by decide) (by decide) testUuids_quoteFree rfl).1 "write error" rfl⟩

/-! ## C11 -/

/-- C11, on the code: `processReceipt` tests the error of every `txn.Exec` and answers 500
when one fails, but it calls `txn.Commit()` without looking at its result. The second test
receipt, which `structValidator` accepts and which scores 31, is posted to the empty
store; every INSERT succeeds and `Commit` fails. The caller is answered with the
identifier `id0`, the committed store is still empty, and the lookup of `id0` that
follows, without any failure, answers 404 instead of 31 points. When it is an INSERT that
fails, the same request is answered with the failure. -/
theorem C11_identifier_without_commit :
    structValidator testReceipt2 = none ∧
      calculatePoints testReceipt2 = some 31 ∧
      (processReceipt commitFails emptyDB ⟨"POST", .ok testReceipt2⟩).response =
        .processed (testUuids 0) ∧
      (processReceipt commitFails emptyDB ⟨"POST", .ok testReceipt2⟩).db = emptyDB ∧
      getReceiptPoints quietRead
          (processReceipt commitFails emptyDB ⟨"POST", .ok testReceipt2⟩).db "GET"
          (testUuids 0) =
        .error 404 "No receipt found for that id" ∧
      (processReceipt itemInsertFails emptyDB ⟨"POST", .ok testReceipt2⟩).response =
        .error 500 "write error" := by
  decide

/-! ## The round trip when the write is committed and the read does not fail -/

theorem scanItems_quiet (env : ReadEnv) (h : ∀ k, env.scanErr k = none) (rows : List itemRow) :
    ∀ (k : Nat) (acc : List item),
      scanItems env k rows acc = .ok (acc ++ rows.map itemOfRow) := by
  induction rows with
  | nil => intro k acc; simp [scanItems]
  | cons row rows ih =>
    intro k acc
    rw [scanItems, h k]
    simp only
    rw [ih]
    simp [itemOfRow]

/-- What a read without storage failure returns for an identifier without single quote:
nothing for an unknown identifier, and otherwise the receipt row with the item rows of that
identifier in the order of the engine. -/
theorem getReceiptById_quiet (env : ReadEnv) (db : DB) (id : GoString) (h : quiet env)
    (hid : 39 ∉ id) :
    getReceiptById env db id =
      match db.receipts.find? (fun x => x.id = id) with
      | none => (none, none)
      | some row =>
          (some ⟨row.id, row.retailer, row.purchase_date, row.purchase_time,
            (env.order (db.items.filter (fun x => x.receipt_id = id))).map itemOfRow,
            row.total⟩, none) := by
  obtain ⟨h1, h2, h3, h4, -⟩ := h
  unfold getReceiptById
  rw [h1, queryReceiptRow_of_quoteFree env db id hid, queryItemRows_of_quoteFree env db id hid]
  cases db.receipts.find? (fun x => x.id = id) with
  | none => rfl
  | some row =>
    simp only [h2, h4]
    rw [scanItems_quiet env h3]
    simp

theorem itemAward_itemOfRow (env : Env) (rid : GoString) (is : List item) :
    ∀ k, ((itemRows env rid k is).map itemOfRow).map itemAward = is.map itemAward := by
  induction is with
  | nil => intro k; rfl
  | cons i is ih =>
    intro k
    simp only [itemRows, List.map_cons, ih]
    rfl

theorem length_itemRows (env : Env) (rid : GoString) (is : List item) :
    ∀ k, (itemRows env rid k is).length = is.length := by
  induction is with
  | nil => intro k; rfl
  | cons i is ih => intro k; simp [itemRows, ih]

theorem receipt_id_itemRows (env : Env) (rid : GoString) (is : List item) :
    ∀ k, ∀ row ∈ itemRows env rid k is, row.receipt_id = rid := by
  induction is with
  | nil => intro k row h; simp [itemRows] at h
  | cons i is ih =>
    intro k row h
    simp only [itemRows, List.mem_cons] at h
    rcases h with h | h
    · rw [h]
    · exact ih (k + 1) row h

/-- The points of the receipt that a read rebuilds from the rows of `r`, returned in any
order, are the points of `r`. -/
theorem calculatePoints_rebuilt (env : Env) (r : receipt) (id : GoString) (rows : List itemRow)
    (hperm : rows.Perm (itemRows env id 1 r.Items)) :
    calculatePoints ⟨id, r.Retailer, r.PurchaseDate, r.PurchaseTime, rows.map itemOfRow,
      r.Total⟩ = calculatePoints r := by
  rw [calculatePoints_eq, calculatePoints_eq]
  have hlen : (rows.map itemOfRow).length = r.Items.length := by
    rw [List.length_map, hperm.length_eq, length_itemRows]
  have hsum : ((rows.map itemOfRow).map itemAward).sum = (r.Items.map itemAward).sum := by
    rw [((hperm.map itemOfRow).map itemAward).sum_eq, itemAward_itemOfRow]
  have hraw : rawPoints ⟨id, r.Retailer, r.PurchaseDate, r.PurchaseTime,
      rows.map itemOfRow, r.Total⟩ = rawPoints r := by
    unfold rawPoints
    simp only [hlen, hsum]
  have hs : slicesOk ⟨id, r.Retailer, r.PurchaseDate, r.PurchaseTime, rows.map itemOfRow,
      r.Total⟩ ↔ slicesOk r := Iff.rfl
  by_cases hr : slicesOk r
  · rw [if_pos hr, if_pos (hs.mpr hr), hraw]
  · rw [if_neg hr, if_neg (fun h2 => hr (hs.mp h2))]

/-- A clean call of `processReceipt` leaves the committed store as it was or adds the rows
of one receipt whose identifier was not in the table. -/
theorem processReceipt_db (env : Env) (db : DB) (req : Request) (hclean : cleanCall env req) :
    (processReceipt env db req).db = db ∨
      ∃ sR : receipt, (processReceipt env db req).db = withReceipt env db sR ∧
        db.receipts.any (fun x => x.id = sR.ID) = false := by
  by_cases hm : req.method = "POST"
  · cases hbody : req.body with
    | error e => left; unfold processReceipt; simp [hm, hbody]
    | ok r =>
      cases hacc : structValidator r with
      | some e =>
        left
        have hacc2 : structValidator { r with ID := env.uuids 0 } = some e := hacc
        unfold processReceipt
        simp [hm, hbody, hacc2]
      | none =>
        cases hbegin : env.beginErr with
        | true =>
          left
          have hacc2 : structValidator { r with ID := env.uuids 0 } = none := hacc
          unfold processReceipt
          simp [hm, hbody, hacc2, hbegin]
        | false =>
          obtain ⟨-, hdb⟩ := processReceipt_accepted env db req r hm hbody hacc hbegin
          rw [hdb]
          cases hw : writeRows env db { r with ID := env.uuids 0 } with
          | error e => left; rfl
          | ok txn1 =>
            obtain ⟨ht, hany⟩ :=
              writeRows_ok (spliceSafe_of_accepted env r hacc hclean.1 (hclean.2 r hbody)) hw
            cases hc : env.commitErr with
            | true => left; simp
            | false => right; exact ⟨_, by simp [ht], hany⟩
  · left; unfold processReceipt; simp [hm]

theorem stored_after_write (env : Env) (db : DB) (sR : receipt) (hwf : wellFormed db)
    (hany : db.receipts.any (fun x => x.id = sR.ID) = false) :
    (withReceipt env db sR).receipts.find? (fun x => x.id = sR.ID) =
        some ⟨sR.ID, sR.Retailer, sR.PurchaseDate, sR.PurchaseTime, sR.Total⟩ ∧
      (withReceipt env db sR).items.filter (fun x => x.receipt_id = sR.ID) =
        itemRows env sR.ID 1 sR.Items := by
  have hnone : ∀ x ∈ db.receipts, ¬ (decide (x.id = sR.ID)) = true := List.any_eq_false.mp hany
  unfold withReceipt
  constructor
  · simp only [List.find?_append, List.find?_eq_none.mpr hnone]
    simp
  · rw [List.filter_append]
    have h1 : db.items.filter (fun x => x.receipt_id = sR.ID) = [] := by
      rw [List.filter_eq_nil_iff]
      intro it hit hp
      obtain ⟨rc, hrc, hid⟩ := hwf it hit
      have : rc.id = sR.ID := by rw [hid]; simpa using hp
      exact hnone rc hrc (by simpa using this)
    have h2 : (itemRows env sR.ID 1 sR.Items).filter (fun x => x.receipt_id = sR.ID) =
        itemRows env sR.ID 1 sR.Items := by
      rw [List.filter_eq_self]
      intro row hrow
      simpa using receipt_id_itemRows env sR.ID sR.Items 1 row hrow
    rw [h1, h2, List.nil_append]

/-- A later clean call of `processReceipt` changes neither the receipt row found for an
identifier that is in the table nor the item rows of that identifier. -/
theorem processReceipt_frame (env : Env) (db : DB) (req : Request) (id : GoString)
    (hclean : cleanCall env req)
    (row : receiptRow) (hrow : db.receipts.find? (fun x => x.id = id) = some row) :
    (processReceipt env db req).db.receipts.find? (fun x => x.id = id) = some row ∧
      (processReceipt env db req).db.items.filter (fun x => x.receipt_id = id) =
        db.items.filter (fun x => x.receipt_id = id) := by
  rcases processReceipt_db env db req hclean with h | ⟨sR, h, hany⟩
  · rw [h]; exact ⟨hrow, rfl⟩
  · rw [h]
    unfold withReceipt
    constructor
    · simp only [List.find?_append, hrow]
      rfl
    · rw [List.filter_append]
      have hne : sR.ID ≠ id := by
        intro he
        have hmem := List.mem_of_find?_eq_some hrow
        have hp : row.id = id := by simpa using List.find?_some hrow
        have := List.any_eq_false.mp hany row hmem
        exact this (by simp [hp, he])
      have h2 : (itemRows env sR.ID 1 sR.Items).filter (fun x => x.receipt_id = id) = [] := by
        rw [List.filter_eq_nil_iff]
        intro it hit hp
        have h3 := receipt_id_itemRows env sR.ID sR.Items 1 it hit
        have h4 : it.receipt_id = id := by simpa using hp
        exact hne (h3 ▸ h4)
      rw [h2, List.append_nil]

theorem later_frame {db db2 : DB} (h : Later db db2) (id : GoString) (row : receiptRow)
    (hrow : db.receipts.find? (fun x => x.id = id) = some row) :
    db2.receipts.find? (fun x => x.id = id) = some row ∧
      db2.items.filter (fun x => x.receipt_id = id) =
        db.items.filter (fun x => x.receipt_id = id) := by
  induction h with
  | refl => exact ⟨hrow, rfl⟩
  | step env req hclean _ ih =>
    obtain ⟨h1, h2⟩ := ih
    obtain ⟨h3, h4⟩ := processReceipt_frame env _ req id hclean row h1
    exact ⟨h3, h4.trans h2⟩

/-- The stores that clean calls of `processReceipt` build from a well-formed store are
well-formed. -/
theorem wellFormed_later {db db2 : DB} (h : Later db db2) (hwf : wellFormed db) :
    wellFormed db2 := by
  induction h with
  | refl => exact hwf
  | step env req hclean _ ih =>
    rcases processReceipt_db env _ req hclean with h | ⟨sR, h, -⟩
    · rw [h]; exact ih
    · rw [h]
      intro it hit
      unfold withReceipt at hit ⊢
      simp only [List.mem_append] at hit ⊢
      rcases hit with hit | hit
      · obtain ⟨rc, hrc, hid⟩ := ih it hit
        exact ⟨rc, Or.inl hrc, hid⟩
      · exact ⟨_, Or.inr (List.mem_singleton.mpr rfl),
          (receipt_id_itemRows env sR.ID sR.Items 1 it hit).symm⟩

/-- The round trip when the write is committed and the read meets no storage failure. A
POST request with a receipt `r` that `structValidator` accepts is answered with the
identifier `id` (not empty) on a store in which every item row belongs to a receipt row,
and `Commit` succeeds; the calls of `processReceipt` that follow, in any number, are clean,
as this one is (no single quote in an identifier, nor in the date or the time of a
receipt). Then a lookup of `id` that meets no storage failure answers exactly
`calculatePoints(r)`, whatever the order in which the engine returns the item rows. -/
theorem round_trip (env : Env) (renv : ReadEnv) (db db2 : DB) (req : Request) (r : receipt)
    (id : GoString) (hwf : wellFormed db) (hm : req.method = "POST")
    (hbody : req.body = .ok r) (hacc : structValidator r = none)
    (hclean : cleanCall env req)
    (hresp : (processReceipt env db req).response = .processed id) (hid : id ≠ [])
    (hcommit : env.commitErr = false)
    (hlater : Later (processReceipt env db req).db db2) (hquiet : quiet renv) :
    ∃ p, calculatePoints r = some p ∧ getReceiptPoints renv db2 "GET" id = .points p := by
  have hbegin : env.beginErr = false := by
    cases hb : env.beginErr with
    | false => rfl
    | true =>
      have hacc2 : structValidator { r with ID := env.uuids 0 } = none := hacc
      unfold processReceipt at hresp
      simp [hm, hbody, hacc2, hb] at hresp
  obtain ⟨hresp2, hdb⟩ := processReceipt_accepted env db req r hm hbody hacc hbegin
  rw [hresp2] at hresp
  cases hw : writeRows env db { r with ID := env.uuids 0 } with
  | error e => rw [hw] at hresp; simp at hresp
  | ok txn1 =>
    rw [hw] at hresp hdb
    have hidv : env.uuids 0 = id := by simpa using hresp
    have hidq : 39 ∉ id := hidv ▸ hclean.1 0
    obtain ⟨ht, hany⟩ :=
      writeRows_ok (spliceSafe_of_accepted env r hacc hclean.1 (hclean.2 r hbody)) hw
    simp only [hcommit, Bool.false_eq_true, if_false] at hdb
    rw [ht] at hdb
    obtain ⟨hfind, hfilter⟩ := stored_after_write env db { r with ID := env.uuids 0 } hwf hany
    rw [hdb] at hlater
    obtain ⟨hfind2, hfilter2⟩ := later_frame hlater (env.uuids 0) _ hfind
    rw [hfilter] at hfilter2
    have hslices : slicesOk r := slicesOk_of_accepts (accepts_of_none hacc)
    refine ⟨wrapInt (rawPoints r), by rw [calculatePoints_eq, if_pos hslices], ?_⟩
    unfold getReceiptPoints
    rw [if_neg (by simp), if_neg hid, getReceiptById_quiet renv db2 id hquiet hidq, ← hidv,
      hfind2, hfilter2]
    simp only
    rw [calculatePoints_rebuilt env r (env.uuids 0) _ (hquiet.2.2.2.2 _), calculatePoints_eq,
      if_pos hslices]

theorem cleanCall_of_example (u : GoString) (hu : 39 ∉ u) (r : receipt)
    (hr : 39 ∉ r.PurchaseDate ∧ 39 ∉ r.PurchaseTime) (b c : Bool)
    (x : Nat → Option String) (o : Nat → DB → GoString → Except String DB) (m : String) :
    cleanCall ⟨fun k => u ++ [48 + k], b, x, c, o⟩ ⟨m, .ok r⟩ := by
  constructor
  · intro k h
    rw [List.mem_append] at h
    rcases h with h | h
    · exact hu h
    · rw [List.mem_singleton] at h
      omega
  · intro r2 h
    have h2 : r = r2 := Except.ok.inj h
    rw [← h2]
    exact hr

/-- The round trip on an example: the third test receipt is posted to the store that holds
the second one and is answered with `x0`; the fourth test receipt is stored afterwards;
the lookup of `x0`, with the item rows returned in reverse order, answers the points of
the third test receipt. -/
theorem round_trip_example :
    ∃ p, calculatePoints testReceipt3 = some p ∧
      getReceiptPoints reversedRead
        (processReceipt quietEnvY
          (processReceipt quietEnvX storeWithReceipt2 ⟨"POST", .ok testReceipt3⟩).db
          ⟨"POST", .ok testReceipt4⟩).db "GET" (str "x0") = .points p :=
  round_trip quietEnvX reversedRead storeWithReceipt2 _ ⟨"POST", .ok testReceipt3⟩
    testReceipt3 (str "x0") (by unfold wellFormed; decide) rfl rfl (by decide)
    (cleanCall_of_example (str "x") (by decide) testReceipt3 (by decide) false false
      (fun _ => none) refuseOther "POST")
    (by decide) (by decide) rfl
    (Later.step quietEnvY _
      (cleanCall_of_example (str "y") (by decide) testReceipt4 (by decide) false false
        (fun _ => none) refuseOther "POST")
      (Later.refl _))
    ⟨rfl, rfl, fun _ => rfl, rfl, fun l => List.reverse_perm l⟩

end Receipt
